import Mathlib

/-!
# WBL0: order ingestion service (`L0/main.go`)

A shallow embedding of `main.go`: the `Order` data model, the JSON binding that
`encoding/json` performs for it, the `orders` table reached through `pgx`, and the
four order functions `orderHandler`, `processOrders`, `getOrderHandler` and
`getAllOrdersHandler`.

Conventions of the embedding.

* A Go `string` is a byte sequence (`GoString`); Go `int` and `int64` are `Int`
  with the 64-bit range checked where a value enters (`fitsInt64`).
* A `[]byte` holding JSON text is a `Bytes`: either text that is not a JSON
  document, or a document, identified with its value tree (`JSON`).  Lexical
  detail of `encoding/json` (white space, escapes, the trailing newline of
  `Encoder.Encode`) is below this level.
* `time.Time` is the civil reading of the instant in its own zone together with the
  zone offset, which is what RFC 3339 text exposes.
* The standard library is followed as documented for Go 1.20 and later on a 64-bit
  platform: `encoding/json` for the binding between JSON values and the structs,
  `unicode/utf8` for strings, `time` for RFC 3339.
* The NATS and PostgreSQL connections are explicit values: what was published, the
  rows of the table, and booleans saying whether a call on them succeeds.  Table
  `orders` is declared outside `main.go`; what its `date_created` column gives back
  for a time stored in it is a parameter of the functions that read the table.
-/

namespace WBL0

deriving instance DecidableEq for Except

/-! ## Go strings and UTF-8 -/

/-- One byte. -/
abbrev Byte := Fin 256

/-- A Go `string`: any sequence of bytes, valid UTF-8 or not. -/
abbrev GoString := List Byte

/-- The byte with value `n` (taken modulo 256). -/
def byte (n : Nat) : Byte := ⟨n % 256, Nat.mod_lt _ (by decide)⟩

/-- The Go constant `utf8.RuneError`, U+FFFD. -/
def runeError : Char := Char.ofNat 0xFFFD

/-- The Go function `utf8.EncodeRune` on a Unicode scalar value. -/
def encodeRune (c : Char) : List Byte :=
  let n := c.toNat
  if n < 0x80 then [byte n]
  else if n < 0x800 then [byte (0xC0 + n / 64), byte (0x80 + n % 64)]
  else if n < 0x10000 then [byte (0xE0 + n / 4096), byte (0x80 + n / 64 % 64), byte (0x80 + n % 64)]
  else [byte (0xF0 + n / 262144), byte (0x80 + n / 4096 % 64), byte (0x80 + n / 64 % 64),
        byte (0x80 + n % 64)]

/-- A UTF-8 continuation byte, `0x80..0xBF`. -/
def isCont (b : Byte) : Bool := 0x80 ≤ b.val && b.val ≤ 0xBF

/-- The accept range of the second byte after lead byte `b0` (Go `acceptRanges`):
    it excludes overlong forms, surrogates and values above U+10FFFF. -/
def secondOK (b0 b1 : Byte) : Bool :=
  if b0.val = 0xE0 then 0xA0 ≤ b1.val && b1.val ≤ 0xBF
  else if b0.val = 0xED then 0x80 ≤ b1.val && b1.val ≤ 0x9F
  else if b0.val = 0xF0 then 0x90 ≤ b1.val && b1.val ≤ 0xBF
  else if b0.val = 0xF4 then 0x80 ≤ b1.val && b1.val ≤ 0x8F
  else isCont b1

/-- The Go function `utf8.DecodeRune`: the first rune of the input and its width in
    bytes; `(RuneError, 1)` when the input does not start with a valid encoding and
    `(RuneError, 0)` when it is empty. -/
def decodeRune : List Byte → Char × Nat
  | [] => (runeError, 0)
  | b0 :: rest =>
    if b0.val < 0x80 then (Char.ofNat b0.val, 1)
    else if 0xC2 ≤ b0.val ∧ b0.val ≤ 0xDF then
      match rest with
      | b1 :: _ =>
        if isCont b1 then (Char.ofNat (b0.val % 32 * 64 + b1.val % 64), 2) else (runeError, 1)
      | _ => (runeError, 1)
    else if 0xE0 ≤ b0.val ∧ b0.val ≤ 0xEF then
      match rest with
      | b1 :: b2 :: _ =>
        if secondOK b0 b1 && isCont b2 then
          (Char.ofNat (b0.val % 16 * 4096 + b1.val % 64 * 64 + b2.val % 64), 3)
        else (runeError, 1)
      | _ => (runeError, 1)
    else if 0xF0 ≤ b0.val ∧ b0.val ≤ 0xF4 then
      match rest with
      | b1 :: b2 :: b3 :: _ =>
        if secondOK b0 b1 && isCont b2 && isCont b3 then
          (Char.ofNat (b0.val % 8 * 262144 + b1.val % 64 * 4096 + b2.val % 64 * 64 + b3.val % 64), 4)
        else (runeError, 1)
      | _ => (runeError, 1)
    else (runeError, 1)

/-- The rune loop of the JSON string encoder, with `fuel` bounding the number of
    runes read: each invalid byte becomes one U+FFFD. -/
def toValidUTF8Aux : Nat → List Byte → List Char
  | 0, _ => []
  | _ + 1, [] => []
  | fuel + 1, b :: bs =>
    let r := decodeRune (b :: bs)
    r.1 :: toValidUTF8Aux fuel ((b :: bs).drop r.2)

/-- The characters a Go string is written as by `json.Marshal`: "string values encode
    as JSON strings coerced to valid UTF-8, replacing invalid bytes with the Unicode
    replacement rune". -/
def toValidUTF8 (s : GoString) : List Char := toValidUTF8Aux s.length s

/-- The bytes of a text: what the decoder stores in a Go string. -/
def utf8Encode (cs : List Char) : GoString := cs.flatMap encodeRune

/-- The Go string with the given text. -/
def goString (s : String) : GoString := utf8Encode s.data

/-- A Go string that is valid UTF-8: the encoding of some text. -/
def ValidUTF8 (s : GoString) : Prop := ∃ cs : List Char, s = utf8Encode cs

/-! ## time.Time and RFC 3339 -/

/-- A `time.Time`, read in its own zone: civil date and clock, and the zone offset in
    seconds east of UTC.  The monotonic clock reading and the name of the location,
    which no JSON text shows, are left out. -/
structure Time where
  year : Int
  month : Nat
  day : Nat
  hour : Nat
  minute : Nat
  second : Nat
  nanosecond : Nat
  offset : Int
  deriving DecidableEq, Repr

/-- The zero `time.Time`: January 1, year 1, 00:00:00 UTC. -/
def Time.zero : Time := ⟨1, 1, 1, 0, 0, 0, 0, 0⟩

/-- Leap years of the proleptic Gregorian calendar (Go `isLeap`). -/
def isLeap (year : Int) : Bool := year % 4 = 0 && (year % 100 ≠ 0 || year % 400 = 0)

/-- Number of days of a month (Go `daysIn`). -/
def daysIn (month : Nat) (year : Int) : Nat :=
  if month = 2 then (if isLeap year then 29 else 28)
  else if month = 4 ∨ month = 6 ∨ month = 9 ∨ month = 11 then 30
  else 31

/-- The fields of a `Time` are a date and a clock reading that exist. -/
def Time.Valid (t : Time) : Prop :=
  1 ≤ t.month ∧ t.month ≤ 12 ∧ 1 ≤ t.day ∧ t.day ≤ daysIn t.month t.year ∧
    t.hour < 24 ∧ t.minute < 60 ∧ t.second < 60 ∧ t.nanosecond < 1000000000

instance (t : Time) : Decidable t.Valid := by unfold Time.Valid; infer_instance

/-- The times `Time.MarshalJSON` can write and RFC 3339 can carry: a year of four
    digits and a zone offset of whole minutes below 24 hours. -/
structure Time.Encodable (t : Time) : Prop where
  valid : t.Valid
  year_lo : 0 ≤ t.year
  year_hi : t.year ≤ 9999
  zone_minutes : t.offset % 60 = 0
  zone_hours : t.offset.natAbs / 60 / 60 < 24

/-- What holds of every time `Time.UnmarshalJSON` reads from a text: a date and a
    clock reading that exist, a year of four digits and a zone offset of whole
    minutes.  The zone offset may reach 24 hours and more, which `Time.MarshalJSON`
    refuses to write. -/
structure Time.Decoded (t : Time) : Prop where
  valid : t.Valid
  year_lo : 0 ≤ t.year
  year_hi : t.year ≤ 9999
  zone_minutes : t.offset % 60 = 0

/-- The decimal digit `d` as a character. -/
def digitChar (d : Nat) : Char := Char.ofNat (48 + d)

/-- A character `0..9`. -/
def isDigit (c : Char) : Bool := 48 ≤ c.toNat && c.toNat ≤ 57

/-- The number written by a list of decimal digits. -/
def digitsVal (ds : List Nat) : Nat := ds.foldl (fun acc d => 10 * acc + d) 0

/-- The nine decimal digits of a nanosecond count. -/
def nanoDigits (ns : Nat) : List Nat :=
  [ns / 100000000 % 10, ns / 10000000 % 10, ns / 1000000 % 10, ns / 100000 % 10, ns / 10000 % 10,
    ns / 1000 % 10, ns / 100 % 10, ns / 10 % 10, ns % 10]

/-- The fraction of layout `.999999999` (Go `appendNano` with trimming): nothing for
    zero, else a period and the nine digits without their trailing zeros. -/
def appendNano (nanosec : Nat) : List Char :=
  if nanosec = 0 then []
  else '.' :: (((nanoDigits nanosec).rdropWhile (fun d => d == 0)).map digitChar)

/-- The zone of layout `Z07:00`: `Z` for offset zero, else the offset in whole minutes
    (the division by 60 truncating toward zero) as sign, hours and minutes. -/
def appendZone (offset : Int) : List Char :=
  if offset = 0 then ['Z']
  else
    let zone := offset.natAbs / 60
    [if offset < 0 ∧ zone ≠ 0 then '-' else '+', digitChar (zone / 60 / 10 % 10),
      digitChar (zone / 60 % 10), ':', digitChar (zone % 60 / 10 % 10), digitChar (zone % 60 % 10)]

/-- The text of a time in layout `time.RFC3339Nano`, for a year of four digits. -/
def formatRFC3339Nano (t : Time) : List Char :=
  let y := t.year.toNat
  digitChar (y / 1000 % 10) :: digitChar (y / 100 % 10) :: digitChar (y / 10 % 10) ::
    digitChar (y % 10) :: '-' :: digitChar (t.month / 10 % 10) :: digitChar (t.month % 10) :: '-' ::
    digitChar (t.day / 10 % 10) :: digitChar (t.day % 10) :: 'T' ::
    digitChar (t.hour / 10 % 10) :: digitChar (t.hour % 10) :: ':' ::
    digitChar (t.minute / 10 % 10) :: digitChar (t.minute % 10) :: ':' ::
    digitChar (t.second / 10 % 10) :: digitChar (t.second % 10) ::
    (appendNano t.nanosecond ++ appendZone t.offset)

/-- The errors of `Time.MarshalJSON`. -/
inductive TimeError where
  | yearRange
  | zoneRange
  deriving DecidableEq, Repr

/-- The method `Time.MarshalJSON`: the RFC 3339 text, or an error when the year is
    outside `[0,9999]` or the zone hour outside `[0,23]`. -/
def Time.MarshalJSON (t : Time) : Except TimeError (List Char) :=
  if t.year < 0 ∨ 9999 < t.year then .error .yearRange
  else if t.offset ≠ 0 ∧ 24 ≤ t.offset.natAbs / 60 / 60 then .error .zoneRange
  else .ok (formatRFC3339Nano t)

/-- Go `parseUint`: the digits `cs` as a number within `[lo, hi]`. -/
def parseUint (cs : List Char) (lo hi : Nat) : Option Nat :=
  if cs.all isDigit then
    let n := digitsVal (cs.map (fun c => c.toNat - 48))
    if lo ≤ n ∧ n ≤ hi then some n else none
  else none

/-- Go `parseNanoseconds`: the first nine digits of a fraction, as nanoseconds. -/
def parseNanoseconds (digits : List Char) : Nat :=
  let ds := (digits.take 9).map (fun c => c.toNat - 48)
  digitsVal ds * 10 ^ (9 - ds.length)

/-- The optional fraction after the seconds: its nanoseconds and the rest.  `comma`
    says whether a comma may stand for the period, which `time.Parse` allows and
    `parseRFC3339` does not. -/
def parseFraction (comma : Bool) : List Char → Nat × List Char
  | c0 :: c1 :: tl =>
    if (c0 = '.' ∨ (comma = true ∧ c0 = ',')) ∧ isDigit c1 then
      (parseNanoseconds ((c1 :: tl).takeWhile isDigit), (c1 :: tl).dropWhile isDigit)
    else (0, c0 :: c1 :: tl)
  | s => (0, s)

/-- The zone that ends the text, as seconds east of UTC: `Z`, or a sign, an hour of
    two digits up to `hourMax`, a colon and a minute of two digits up to `minuteMax`. -/
def parseZone (hourMax minuteMax : Nat) : List Char → Option Int
  | [z] => if z = 'Z' then some 0 else none
  | [sg, h0, h1, colon, m0, m1] =>
    if (sg = '-' ∨ sg = '+') ∧ colon = ':' then
      match parseUint [h0, h1] 0 hourMax, parseUint [m0, m1] 0 minuteMax with
      | some hr, some mm =>
        some (if sg = '-' then -(((hr * 60 + mm) * 60 : Nat) : Int) else (((hr * 60 + mm) * 60 : Nat) : Int))
      | _, _ => none
    else none
  | _ => none

/-- Go `parseRFC3339`, the first attempt of `Time.UnmarshalJSON` on the text between
    the quotes: `YYYY-MM-DDTHH:MM:SS[.fraction](Z|±HH:MM)` with every field in range,
    the zone hour up to 23 and the zone minute up to 59. -/
def parseRFC3339 : List Char → Option Time
  | y0 :: y1 :: y2 :: y3 :: s4 :: m0 :: m1 :: s7 :: d0 :: d1 :: s10 :: h0 :: h1 :: s13 :: mi0 ::
      mi1 :: s16 :: s0 :: s1 :: rest =>
    match parseUint [y0, y1, y2, y3] 0 9999, parseUint [m0, m1] 1 12 with
    | some year, some month =>
      match parseUint [d0, d1] 1 (daysIn month year), parseUint [h0, h1] 0 23,
          parseUint [mi0, mi1] 0 59, parseUint [s0, s1] 0 59 with
      | some day, some hour, some min, some sec =>
        if s4 = '-' ∧ s7 = '-' ∧ s10 = 'T' ∧ s13 = ':' ∧ s16 = ':' then
          match parseZone 23 59 (parseFraction false rest).2 with
          | some off => some ⟨year, month, day, hour, min, sec, (parseFraction false rest).1, off⟩
          | none => none
        else none
      | _, _, _, _ => none
    | _, _ => none
  | _ => none

/-- Go `getnum` with `fixed` false: a number of one digit, or of two when a second
    digit follows, and the rest of the text. -/
def getnum : List Char → Option (Nat × List Char)
  | [] => none
  | [c0] => if isDigit c0 then some (c0.toNat - 48, []) else none
  | c0 :: c1 :: rest =>
    if isDigit c0 then
      if isDigit c1 then some ((c0.toNat - 48) * 10 + (c1.toNat - 48), rest)
      else some (c0.toNat - 48, c1 :: rest)
    else none

/-- The call `time.Parse(time.RFC3339, s)`, layout `2006-01-02T15:04:05Z07:00`: a year
    of four digits, month and day of two, an hour of one or two digits, minute and
    second of two, an optional fraction after a period or a comma, and `Z` or a zone
    `±HH:MM` that ends the text.  The day is checked against the month at the end; the
    range test of the zone admits an hour of 24 and a minute of 60. -/
def parseLayout : List Char → Option Time
  | y0 :: y1 :: y2 :: y3 :: s4 :: m0 :: m1 :: s7 :: d0 :: d1 :: s10 :: rest =>
    match parseUint [y0, y1, y2, y3] 0 9999, parseUint [m0, m1] 1 12, parseUint [d0, d1] 0 99,
        getnum rest with
    | some year, some month, some day, some (hour, s13 :: mi0 :: mi1 :: s16 :: s0 :: s1 :: rest1) =>
      match parseUint [mi0, mi1] 0 59, parseUint [s0, s1] 0 59 with
      | some min, some sec =>
        if s4 = '-' ∧ s7 = '-' ∧ s10 = 'T' ∧ s13 = ':' ∧ s16 = ':' ∧ hour < 24 ∧ 1 ≤ day ∧
            day ≤ daysIn month year then
          match parseZone 24 60 (parseFraction true rest1).2 with
          | some off => some ⟨year, month, day, hour, min, sec, (parseFraction true rest1).1, off⟩
          | none => none
        else none
      | _, _ => none
    | _, _, _, _ => none
  | _ => none

/-- Go `parseStrictRFC3339`, which `Time.UnmarshalJSON` applies to the text between
    the quotes: `parseRFC3339`, and when that fails `time.Parse` with the layout
    `time.RFC3339`, whose result is returned as it is (the checks that would make the
    reading strict are switched off in the library).  So a one-digit hour, a comma
    before the fraction and a zone of 24 hours are read. -/
def parseStrictRFC3339 (s : List Char) : Option Time :=
  match parseRFC3339 s with
  | some t => some t
  | none => parseLayout s

/-! ## JSON documents -/

/-- A JSON value.  A number literal is `num` when it is written as an integer and
    `real` when it has a fraction or an exponent; a string is its text after unescaping. -/
inductive JSON where
  | null
  | bool (b : Bool)
  | num (n : Int)
  | real (literal : String)
  | str (s : String)
  | arr (elems : List JSON)
  | obj (members : List (String × JSON))

/-- The contents of a `[]byte` handed to or produced by `encoding/json`.  Two texts of
    the same document, which differ in white space or in escapes, are the same value. -/
inductive Bytes where
  /-- Text that is not one JSON document (`json.Valid` is false). -/
  | invalid
  /-- The text of a JSON document. -/
  | json (doc : JSON)

/-! ## The data model (`main.go`, lines 25-71) -/

/-- The anonymous struct of field `Delivery`. -/
structure Delivery where
  Name : GoString
  Phone : GoString
  Zip : GoString
  City : GoString
  Address : GoString
  Region : GoString
  Email : GoString
  deriving DecidableEq

/-- The anonymous struct of field `Payment`. -/
structure Payment where
  Transaction : GoString
  RequestID : GoString
  Currency : GoString
  Provider : GoString
  Amount : Int
  PaymentDT : Int
  Bank : GoString
  DeliveryCost : Int
  GoodsTotal : Int
  CustomFee : Int
  deriving DecidableEq

/-- The anonymous struct of the elements of field `Items`. -/
structure Item where
  ChrtID : Int
  TrackNumber : GoString
  Price : Int
  Rid : GoString
  Name : GoString
  Sale : Int
  Size : GoString
  TotalPrice : Int
  NmID : Int
  Brand : GoString
  Status : Int
  deriving DecidableEq

/-- The struct `Order`.  The slice `Items` is `none` when nil and `some xs` when it
    is a non-nil slice with elements `xs` (possibly none). -/
structure Order where
  OrderUID : GoString
  TrackNumber : GoString
  Entry : GoString
  Delivery : Delivery
  Payment : Payment
  Items : Option (List Item)
  Locale : GoString
  InternalSignature : GoString
  CustomerID : GoString
  DeliveryService : GoString
  Shardkey : GoString
  SmID : Int
  DateCreated : Time
  OofShard : GoString
  deriving DecidableEq

/-- The zero value of the `Delivery` struct. -/
def Delivery.zero : Delivery := ⟨[], [], [], [], [], [], []⟩

/-- The zero value of the `Payment` struct. -/
def Payment.zero : Payment := ⟨[], [], [], [], 0, 0, [], 0, 0, 0⟩

/-- The zero value of an element of `Items`. -/
def Item.zero : Item := ⟨0, [], 0, [], [], 0, [], 0, 0, [], 0⟩

/-- The value of `var order Order`. -/
def Order.zero : Order :=
  ⟨[], [], [], Delivery.zero, Payment.zero, none, [], [], [], [], [], 0, Time.zero, []⟩

/-- The range of Go `int` (64-bit platforms) and `int64`. -/
def fitsInt64 (n : Int) : Prop := -9223372036854775808 ≤ n ∧ n ≤ 9223372036854775807

instance (n : Int) : Decidable (fitsInt64 n) := by unfold fitsInt64; infer_instance

/-- Every Go string of a `Delivery` is valid UTF-8. -/
structure Delivery.Encodable (d : Delivery) : Prop where
  name : ValidUTF8 d.Name
  phone : ValidUTF8 d.Phone
  zip : ValidUTF8 d.Zip
  city : ValidUTF8 d.City
  address : ValidUTF8 d.Address
  region : ValidUTF8 d.Region
  email : ValidUTF8 d.Email

/-- Every Go string of a `Payment` is valid UTF-8 and every integer a 64-bit one. -/
structure Payment.Encodable (p : Payment) : Prop where
  transaction : ValidUTF8 p.Transaction
  request_id : ValidUTF8 p.RequestID
  currency : ValidUTF8 p.Currency
  provider : ValidUTF8 p.Provider
  amount : fitsInt64 p.Amount
  payment_dt : fitsInt64 p.PaymentDT
  bank : ValidUTF8 p.Bank
  delivery_cost : fitsInt64 p.DeliveryCost
  goods_total : fitsInt64 p.GoodsTotal
  custom_fee : fitsInt64 p.CustomFee

/-- Every Go string of an item is valid UTF-8 and every integer a 64-bit one. -/
structure Item.Encodable (i : Item) : Prop where
  chrt_id : fitsInt64 i.ChrtID
  track_number : ValidUTF8 i.TrackNumber
  price : fitsInt64 i.Price
  rid : ValidUTF8 i.Rid
  name : ValidUTF8 i.Name
  sale : fitsInt64 i.Sale
  size : ValidUTF8 i.Size
  total_price : fitsInt64 i.TotalPrice
  nm_id : fitsInt64 i.NmID
  brand : ValidUTF8 i.Brand
  status : fitsInt64 i.Status

/-- The elements of an `Items` slice are encodable. -/
def ItemsEncodable : Option (List Item) → Prop
  | none => True
  | some xs => ∀ i ∈ xs, i.Encodable

/-- The orders whose JSON text says everything about them: every Go string is valid
    UTF-8, every integer is a 64-bit one, and `DateCreated` is a time RFC 3339 can
    carry. -/
structure Order.Encodable (o : Order) : Prop where
  order_uid : ValidUTF8 o.OrderUID
  track_number : ValidUTF8 o.TrackNumber
  entry : ValidUTF8 o.Entry
  delivery : o.Delivery.Encodable
  payment : o.Payment.Encodable
  items : ItemsEncodable o.Items
  locale : ValidUTF8 o.Locale
  internal_signature : ValidUTF8 o.InternalSignature
  customer_id : ValidUTF8 o.CustomerID
  delivery_service : ValidUTF8 o.DeliveryService
  shardkey : ValidUTF8 o.Shardkey
  sm_id : fitsInt64 o.SmID
  date_created : o.DateCreated.Encodable
  oof_shard : ValidUTF8 o.OofShard

/-- What holds of every order the JSON decoder produces from a fresh `Order`: every Go
    string is valid UTF-8, every integer is a 64-bit one, and `DateCreated` is a time
    `Time.UnmarshalJSON` can have read. -/
structure Order.Decoded (o : Order) : Prop where
  order_uid : ValidUTF8 o.OrderUID
  track_number : ValidUTF8 o.TrackNumber
  entry : ValidUTF8 o.Entry
  delivery : o.Delivery.Encodable
  payment : o.Payment.Encodable
  items : ItemsEncodable o.Items
  locale : ValidUTF8 o.Locale
  internal_signature : ValidUTF8 o.InternalSignature
  customer_id : ValidUTF8 o.CustomerID
  delivery_service : ValidUTF8 o.DeliveryService
  shardkey : ValidUTF8 o.Shardkey
  sm_id : fitsInt64 o.SmID
  date_created : o.DateCreated.Decoded
  oof_shard : ValidUTF8 o.OofShard

/-! ## encoding/json: writing -/

namespace json

/-- A Go string as a JSON string. -/
def marshalString (s : GoString) : JSON := .str (String.mk (toValidUTF8 s))

/-- The `Delivery` struct as a JSON object, keys from the struct tags in field order. -/
def marshalDelivery (d : Delivery) : JSON :=
  .obj [("name", marshalString d.Name), ("phone", marshalString d.Phone),
    ("zip", marshalString d.Zip), ("city", marshalString d.City),
    ("address", marshalString d.Address), ("region", marshalString d.Region),
    ("email", marshalString d.Email)]

/-- The `Payment` struct as a JSON object. -/
def marshalPayment (p : Payment) : JSON :=
  .obj [("transaction", marshalString p.Transaction), ("request_id", marshalString p.RequestID),
    ("currency", marshalString p.Currency), ("provider", marshalString p.Provider),
    ("amount", .num p.Amount), ("payment_dt", .num p.PaymentDT), ("bank", marshalString p.Bank),
    ("delivery_cost", .num p.DeliveryCost), ("goods_total", .num p.GoodsTotal),
    ("custom_fee", .num p.CustomFee)]

/-- An element of `Items` as a JSON object. -/
def marshalItem (i : Item) : JSON :=
  .obj [("chrt_id", .num i.ChrtID), ("track_number", marshalString i.TrackNumber),
    ("price", .num i.Price), ("rid", marshalString i.Rid), ("name", marshalString i.Name),
    ("sale", .num i.Sale), ("size", marshalString i.Size), ("total_price", .num i.TotalPrice),
    ("nm_id", .num i.NmID), ("brand", marshalString i.Brand), ("status", .num i.Status)]

/-- The `Items` slice: "slice values encode as JSON arrays, except that a nil slice
    encodes as the null JSON value". -/
def marshalItems : Option (List Item) → JSON
  | none => .null
  | some xs => .arr (xs.map marshalItem)

/-- The `Order` struct as a JSON object; it fails when `DateCreated` does. -/
def marshalOrder (o : Order) : Except TimeError JSON :=
  match o.DateCreated.MarshalJSON with
  | .error e => .error e
  | .ok date =>
    .ok (.obj [("order_uid", marshalString o.OrderUID),
      ("track_number", marshalString o.TrackNumber), ("entry", marshalString o.Entry),
      ("delivery", marshalDelivery o.Delivery), ("payment", marshalPayment o.Payment),
      ("items", marshalItems o.Items), ("locale", marshalString o.Locale),
      ("internal_signature", marshalString o.InternalSignature),
      ("customer_id", marshalString o.CustomerID),
      ("delivery_service", marshalString o.DeliveryService),
      ("shardkey", marshalString o.Shardkey), ("sm_id", .num o.SmID),
      ("date_created", .str (String.mk date)), ("oof_shard", marshalString o.OofShard)])

/-- The elements of a slice of orders, failing at the first that fails. -/
def marshalOrderList : List Order → Except TimeError (List JSON)
  | [] => .ok []
  | o :: os =>
    match marshalOrder o with
    | .error e => .error e
    | .ok j =>
      match marshalOrderList os with
      | .error e => .error e
      | .ok js => .ok (j :: js)

/-- The call `json.Marshal(order.Delivery)`. -/
def MarshalDelivery (d : Delivery) : Except TimeError Bytes := .ok (.json (marshalDelivery d))

/-- The call `json.Marshal(order.Payment)`. -/
def MarshalPayment (p : Payment) : Except TimeError Bytes := .ok (.json (marshalPayment p))

/-- The call `json.Marshal(order.Items)`. -/
def MarshalItems (xs : Option (List Item)) : Except TimeError Bytes := .ok (.json (marshalItems xs))

/-- The call `json.Marshal(order)`, and `Encoder.Encode(order)`. -/
def MarshalOrder (o : Order) : Except TimeError Bytes :=
  match marshalOrder o with
  | .error e => .error e
  | .ok j => .ok (.json j)

/-- The call `Encoder.Encode(orders)` on a `[]Order`: a nil slice is `null`. -/
def MarshalOrders : Option (List Order) → Except TimeError Bytes
  | none => .ok (.json .null)
  | some os =>
    match marshalOrderList os with
    | .error e => .error e
    | .ok js => .ok (.json (.arr js))

/-! ## encoding/json: reading -/

/-- Why `json.Unmarshal` returns an error: the text is not JSON, a value has the wrong
    JSON type for its Go field (`UnmarshalTypeError`), or `date_created` is not an
    RFC 3339 time.  The decoder of Go goes on after a type error and reports it at
    the end; the callers in `main.go` drop the value on any error, so stopping at the
    first one gives them the same. -/
inductive UnmarshalError where
  | invalidJSON
  | typeError
  | timeError
  deriving DecidableEq, Repr

/-- Case folding of a key character, as far as it can reach an ASCII letter: the
    upper-case letters, the Kelvin sign and the long s. -/
def foldRune (c : Char) : Char :=
  if 65 ≤ c.toNat ∧ c.toNat ≤ 90 then Char.ofNat (c.toNat + 32)
  else if c.toNat = 0x212A then 'k'
  else if c.toNat = 0x17F then 's'
  else c

/-- A key of the document names a field: equal to its tag, or equal under case
    folding ("preferring an exact match but also accepting a case-insensitive
    match"). -/
def equalFold (key name : String) : Bool := key.data.map foldRune == name.data.map foldRune

/-- The field a key names, if any. -/
def findField {F : Type} : List (String × F) → String → Option F
  | [], _ => none
  | (name, f) :: fields, key => if equalFold key name then some f else findField fields key

/-- The members of an object stored one after the other into a struct: a key that
    names no field is skipped, a later member for the same field stores over an
    earlier one. -/
def decodeMembers {S F : Type} (fields : List (String × F))
    (set : S → F → JSON → Except UnmarshalError S) : S → List (String × JSON) → Except UnmarshalError S
  | s, [] => .ok s
  | s, (key, v) :: rest =>
    match findField fields key with
    | none => decodeMembers fields set s rest
    | some f =>
      match set s f v with
      | .error e => .error e
      | .ok s1 => decodeMembers fields set s1 rest

/-- A JSON value stored into a struct: `null` leaves it as it is, an object stores
    its members, anything else is a type error. -/
def decodeStruct {S F : Type} (fields : List (String × F))
    (set : S → F → JSON → Except UnmarshalError S) (cur : S) : JSON → Except UnmarshalError S
  | .null => .ok cur
  | .obj members => decodeMembers fields set cur members
  | _ => .error .typeError

/-- A JSON value stored into a Go string. -/
def decodeString (cur : GoString) : JSON → Except UnmarshalError GoString
  | .null => .ok cur
  | .str s => .ok (utf8Encode s.data)
  | _ => .error .typeError

/-- A JSON value stored into a Go `int` or `int64`: an integer literal within 64
    bits. -/
def decodeInt (cur : Int) : JSON → Except UnmarshalError Int
  | .null => .ok cur
  | .num n => if fitsInt64 n then .ok n else .error .typeError
  | _ => .error .typeError

/-- A JSON value stored into a `time.Time` (`Time.UnmarshalJSON`): `null` leaves it as
    it is, a string is read by `parseStrictRFC3339`, anything else is an error.  The
    method reads the text between the quotes as it is written, which for a string
    spelled without escapes, as `json.Marshal` spells a time, is the string itself. -/
def decodeTime (cur : Time) : JSON → Except UnmarshalError Time
  | .null => .ok cur
  | .str s =>
    match parseStrictRFC3339 s.data with
    | some t => .ok t
    | none => .error .timeError
  | _ => .error .timeError

/-- The fields of the `Delivery` struct. -/
inductive DeliveryField where
  | name | phone | zip | city | address | region | email
  deriving DecidableEq, Repr

/-- The JSON tags of the `Delivery` struct. -/
def deliveryFields : List (String × DeliveryField) :=
  [("name", .name), ("phone", .phone), ("zip", .zip), ("city", .city), ("address", .address),
    ("region", .region), ("email", .email)]

/-- A JSON value stored into one field of a `Delivery`. -/
def setDelivery (d : Delivery) : DeliveryField → JSON → Except UnmarshalError Delivery
  | .name, v => (decodeString d.Name v).map (fun x => { d with Name := x })
  | .phone, v => (decodeString d.Phone v).map (fun x => { d with Phone := x })
  | .zip, v => (decodeString d.Zip v).map (fun x => { d with Zip := x })
  | .city, v => (decodeString d.City v).map (fun x => { d with City := x })
  | .address, v => (decodeString d.Address v).map (fun x => { d with Address := x })
  | .region, v => (decodeString d.Region v).map (fun x => { d with Region := x })
  | .email, v => (decodeString d.Email v).map (fun x => { d with Email := x })

/-- A JSON value stored into a `Delivery`. -/
def decodeDelivery (cur : Delivery) (v : JSON) : Except UnmarshalError Delivery :=
  decodeStruct deliveryFields setDelivery cur v

/-- The fields of the `Payment` struct. -/
inductive PaymentField where
  | transaction | request_id | currency | provider | amount | payment_dt | bank | delivery_cost
  | goods_total | custom_fee
  deriving DecidableEq, Repr

/-- The JSON tags of the `Payment` struct. -/
def paymentFields : List (String × PaymentField) :=
  [("transaction", .transaction), ("request_id", .request_id), ("currency", .currency),
    ("provider", .provider), ("amount", .amount), ("payment_dt", .payment_dt), ("bank", .bank),
    ("delivery_cost", .delivery_cost), ("goods_total", .goods_total), ("custom_fee", .custom_fee)]

/-- A JSON value stored into one field of a `Payment`. -/
def setPayment (p : Payment) : PaymentField → JSON → Except UnmarshalError Payment
  | .transaction, v => (decodeString p.Transaction v).map (fun x => { p with Transaction := x })
  | .request_id, v => (decodeString p.RequestID v).map (fun x => { p with RequestID := x })
  | .currency, v => (decodeString p.Currency v).map (fun x => { p with Currency := x })
  | .provider, v => (decodeString p.Provider v).map (fun x => { p with Provider := x })
  | .amount, v => (decodeInt p.Amount v).map (fun x => { p with Amount := x })
  | .payment_dt, v => (decodeInt p.PaymentDT v).map (fun x => { p with PaymentDT := x })
  | .bank, v => (decodeString p.Bank v).map (fun x => { p with Bank := x })
  | .delivery_cost, v => (decodeInt p.DeliveryCost v).map (fun x => { p with DeliveryCost := x })
  | .goods_total, v => (decodeInt p.GoodsTotal v).map (fun x => { p with GoodsTotal := x })
  | .custom_fee, v => (decodeInt p.CustomFee v).map (fun x => { p with CustomFee := x })

/-- A JSON value stored into a `Payment`. -/
def decodePayment (cur : Payment) (v : JSON) : Except UnmarshalError Payment :=
  decodeStruct paymentFields setPayment cur v

/-- The fields of an element of `Items`. -/
inductive ItemField where
  | chrt_id | track_number | price | rid | name | sale | size | total_price | nm_id | brand | status
  deriving DecidableEq, Repr

/-- The JSON tags of an element of `Items`. -/
def itemFields : List (String × ItemField) :=
  [("chrt_id", .chrt_id), ("track_number", .track_number), ("price", .price), ("rid", .rid),
    ("name", .name), ("sale", .sale), ("size", .size), ("total_price", .total_price),
    ("nm_id", .nm_id), ("brand", .brand), ("status", .status)]

/-- A JSON value stored into one field of an item. -/
def setItem (i : Item) : ItemField → JSON → Except UnmarshalError Item
  | .chrt_id, v => (decodeInt i.ChrtID v).map (fun x => { i with ChrtID := x })
  | .track_number, v => (decodeString i.TrackNumber v).map (fun x => { i with TrackNumber := x })
  | .price, v => (decodeInt i.Price v).map (fun x => { i with Price := x })
  | .rid, v => (decodeString i.Rid v).map (fun x => { i with Rid := x })
  | .name, v => (decodeString i.Name v).map (fun x => { i with Name := x })
  | .sale, v => (decodeInt i.Sale v).map (fun x => { i with Sale := x })
  | .size, v => (decodeString i.Size v).map (fun x => { i with Size := x })
  | .total_price, v => (decodeInt i.TotalPrice v).map (fun x => { i with TotalPrice := x })
  | .nm_id, v => (decodeInt i.NmID v).map (fun x => { i with NmID := x })
  | .brand, v => (decodeString i.Brand v).map (fun x => { i with Brand := x })
  | .status, v => (decodeInt i.Status v).map (fun x => { i with Status := x })

/-- A JSON value stored into an item. -/
def decodeItem (cur : Item) (v : JSON) : Except UnmarshalError Item :=
  decodeStruct itemFields setItem cur v

/-- The elements of a JSON array decoded one after the other into the slots of a
    backing array: element `k` is decoded into what `backing` holds at `k`, and into a
    zero element where `backing` has come to its end. -/
def decodeItemList : List Item → List JSON → Except UnmarshalError (List Item)
  | _, [] => .ok []
  | backing, v :: vs =>
    match decodeItem (backing.headD Item.zero) v with
    | .error e => .error e
    | .ok i =>
      match decodeItemList backing.tail vs with
      | .error e => .error e
      | .ok is => .ok (i :: is)

/-- A JSON value stored into the `Items` slice.  The slice is `cur`, and `spare` are
    the elements that lie in its backing array beyond its length; the result is the
    slice and the spare elements after the store.  `null` makes the slice nil and `[]`
    makes it a fresh empty slice.  An array with elements is decoded in place
    (function `array` of `encoding/json/decode.go`): element `k` is decoded into slot
    `k` of the backing array, which holds what an earlier `items` member of the same
    document left there, the slice grows by zero elements where the backing array
    ends, and it is cut to the number of elements of the array. -/
def decodeItems (cur : Option (List Item)) (spare : List Item) :
    JSON → Except UnmarshalError (Option (List Item) × List Item)
  | .null => .ok (none, [])
  | .arr elems =>
    match decodeItemList (cur.getD [] ++ spare) elems with
    | .error e => .error e
    | .ok is =>
      .ok (some is, if elems.isEmpty then [] else (cur.getD [] ++ spare).drop elems.length)
  | _ => .error .typeError

/-- The fields of the `Order` struct. -/
inductive OrderField where
  | order_uid | track_number | entry | delivery | payment | items | locale | internal_signature
  | customer_id | delivery_service | shardkey | sm_id | date_created | oof_shard
  deriving DecidableEq, Repr

/-- The JSON tags of the `Order` struct. -/
def orderFields : List (String × OrderField) :=
  [("order_uid", .order_uid), ("track_number", .track_number), ("entry", .entry),
    ("delivery", .delivery), ("payment", .payment), ("items", .items), ("locale", .locale),
    ("internal_signature", .internal_signature), ("customer_id", .customer_id),
    ("delivery_service", .delivery_service), ("shardkey", .shardkey), ("sm_id", .sm_id),
    ("date_created", .date_created), ("oof_shard", .oof_shard)]

/-- An `Order` while a document is decoded into it: the order, and the elements that
    lie in the backing array of its `Items` beyond the length of the slice. -/
structure Decoding where
  order : Order
  spare : List Item

/-- A JSON value stored into one field of an `Order`. -/
def setOrder (s : Decoding) : OrderField → JSON → Except UnmarshalError Decoding
  | .order_uid, v =>
    (decodeString s.order.OrderUID v).map (fun x => ⟨{ s.order with OrderUID := x }, s.spare⟩)
  | .track_number, v =>
    (decodeString s.order.TrackNumber v).map (fun x => ⟨{ s.order with TrackNumber := x }, s.spare⟩)
  | .entry, v => (decodeString s.order.Entry v).map (fun x => ⟨{ s.order with Entry := x }, s.spare⟩)
  | .delivery, v =>
    (decodeDelivery s.order.Delivery v).map (fun x => ⟨{ s.order with Delivery := x }, s.spare⟩)
  | .payment, v =>
    (decodePayment s.order.Payment v).map (fun x => ⟨{ s.order with Payment := x }, s.spare⟩)
  | .items, v =>
    (decodeItems s.order.Items s.spare v).map (fun x => ⟨{ s.order with Items := x.1 }, x.2⟩)
  | .locale, v => (decodeString s.order.Locale v).map (fun x => ⟨{ s.order with Locale := x }, s.spare⟩)
  | .internal_signature, v =>
    (decodeString s.order.InternalSignature v).map
      (fun x => ⟨{ s.order with InternalSignature := x }, s.spare⟩)
  | .customer_id, v =>
    (decodeString s.order.CustomerID v).map (fun x => ⟨{ s.order with CustomerID := x }, s.spare⟩)
  | .delivery_service, v =>
    (decodeString s.order.DeliveryService v).map
      (fun x => ⟨{ s.order with DeliveryService := x }, s.spare⟩)
  | .shardkey, v =>
    (decodeString s.order.Shardkey v).map (fun x => ⟨{ s.order with Shardkey := x }, s.spare⟩)
  | .sm_id, v => (decodeInt s.order.SmID v).map (fun x => ⟨{ s.order with SmID := x }, s.spare⟩)
  | .date_created, v =>
    (decodeTime s.order.DateCreated v).map (fun x => ⟨{ s.order with DateCreated := x }, s.spare⟩)
  | .oof_shard, v =>
    (decodeString s.order.OofShard v).map (fun x => ⟨{ s.order with OofShard := x }, s.spare⟩)

/-- A JSON value stored into an `Order` whose `Items` has no capacity beyond its
    length, as a nil slice has none. -/
def decodeOrder (cur : Order) (v : JSON) : Except UnmarshalError Order :=
  (decodeStruct orderFields setOrder ⟨cur, []⟩ v).map (fun s => s.order)

/-- The calls `json.Unmarshal(data, &order)` and `Decoder.Decode(&order)`, where
    `order` holds `cur` before the call. -/
def UnmarshalOrder (data : Bytes) (cur : Order) : Except UnmarshalError Order :=
  match data with
  | .invalid => .error .invalidJSON
  | .json doc => decodeOrder cur doc

/-- The call `json.Unmarshal(delivery, &order.Delivery)`. -/
def UnmarshalDelivery (data : Bytes) (cur : Delivery) : Except UnmarshalError Delivery :=
  match data with
  | .invalid => .error .invalidJSON
  | .json doc => decodeDelivery cur doc

/-- The call `json.Unmarshal(payment, &order.Payment)`. -/
def UnmarshalPayment (data : Bytes) (cur : Payment) : Except UnmarshalError Payment :=
  match data with
  | .invalid => .error .invalidJSON
  | .json doc => decodePayment cur doc

/-- The call `json.Unmarshal(items, &order.Items)`, where the slice `cur` has no
    capacity beyond its length. -/
def UnmarshalItems (data : Bytes) (cur : Option (List Item)) :
    Except UnmarshalError (Option (List Item)) :=
  match data with
  | .invalid => .error .invalidJSON
  | .json doc => (decodeItems cur [] doc).map (fun x => x.1)

end json

/-! ## The `orders` table -/

/-- A row of table `orders`: the values bound to the fourteen columns by the
    statement of `processOrders`, the three nested values as the bytes handed to
    `db.Exec`.  The table is created outside `main.go`.  What `Scan` gives back for
    `date_created` is decided by the column (`DateColumn`); every other column is
    taken to give back the value it was given. -/
structure Row where
  order_uid : GoString
  track_number : GoString
  entry : GoString
  delivery : Bytes
  payment : Bytes
  items : Bytes
  locale : GoString
  internal_signature : GoString
  customer_id : GoString
  delivery_service : GoString
  shardkey : GoString
  sm_id : Int
  date_created : Time
  oof_shard : GoString

/-- The rows of table `orders`, in the order a `SELECT` returns them. -/
abbrev Table := List Row

/-- What the `date_created` column gives back to `Scan` for a time that was bound as
    `$13`.  The declaration of the table is not part of `main.go`, so the column is a
    parameter: PostgreSQL keeps a timestamp to the microsecond and without the zone
    offset, and the type of the column decides which reading of it comes back. -/
abbrev DateColumn := Time → Time

/-- A column of type `timestamp` read through `pgx`: the civil reading of the time
    bound, cut to the microsecond, with no zone offset. -/
def timestampColumn : DateColumn :=
  fun t => { t with nanosecond := t.nanosecond / 1000 * 1000, offset := 0 }

/-- The key constraint that `ON CONFLICT (order_uid)` relies on: no two rows share
    an `order_uid`. -/
def Table.Unique (t : Table) : Prop := (t.map (fun r => r.order_uid)).Nodup

/-- The clause `DO UPDATE SET ... = EXCLUDED. ...` (lines 285-298): the existing row
    with the thirteen listed columns taken from the proposed row. -/
def onConflictUpdate (existing excluded : Row) : Row :=
  { existing with
    track_number := excluded.track_number
    entry := excluded.entry
    delivery := excluded.delivery
    payment := excluded.payment
    items := excluded.items
    locale := excluded.locale
    internal_signature := excluded.internal_signature
    customer_id := excluded.customer_id
    delivery_service := excluded.delivery_service
    shardkey := excluded.shardkey
    sm_id := excluded.sm_id
    date_created := excluded.date_created
    oof_shard := excluded.oof_shard }

/-- The statement `INSERT INTO orders ... ON CONFLICT (order_uid) DO UPDATE SET ...`
    (lines 283-298) when it succeeds: the row is inserted when no row has its
    `order_uid`, and otherwise the row that has it is updated. -/
def upsert (t : Table) (r : Row) : Table :=
  if t.any (fun x => x.order_uid = r.order_uid) then
    t.map (fun x => if x.order_uid = r.order_uid then onConflictUpdate x r else x)
  else t ++ [r]

/-- The call `db.Exec` of that statement: the new table, or an error that leaves the
    table as it was when the database does not carry the statement out. -/
def dbExec (dbOk : Bool) (t : Table) (r : Row) : Except Unit Table :=
  if dbOk then .ok (upsert t r) else .error ()

/-- The query `SELECT ... FROM orders WHERE order_uid=$1` followed by `Scan`: the row
    with that key, or nothing (for `Scan`, an error). -/
def queryRow (t : Table) (orderUID : GoString) : Option Row :=
  t.find? (fun x => x.order_uid = orderUID)

/-- The number of rows stored under a key. -/
def rowCount (t : Table) (orderUID : GoString) : Nat :=
  (t.filter (fun x => x.order_uid = orderUID)).length

/-! ## HTTP responses and the queue -/

/-- What a handler writes as the body of its response. -/
inductive Body where
  /-- The message of `http.Error`. -/
  | error (msg : String)
  /-- The line `Order received: <order_uid>` of `orderHandler`. -/
  | orderReceived (orderUID : GoString)
  /-- What `json.NewEncoder(w).Encode` wrote. -/
  | json (data : Bytes)
  /-- Nothing was written. -/
  | empty

/-- A response: status code and body. -/
structure Response where
  status : Nat
  body : Body

/-- The JetStream context as `orderHandler` meets it: whether `js` is set, whether
    `nc.JetStream()` would succeed, and whether `js.Publish` succeeds. -/
structure JetStream where
  ready : Bool
  create : Bool
  publish : Bool

/-- A JetStream context that is set and accepts what is published. -/
def JetStream.up : JetStream := ⟨true, true, true⟩

/-! ## The functions of `main.go` -/

/-- The function `orderHandler` (lines 212-243) for a request with the given body: the
    response, and the messages published on subject `orders`.  `Decoder.Decode` reads
    the first JSON value of the body, which is what `body` stands for here. -/
def orderHandler (js : JetStream) (body : Bytes) : Response × List Bytes :=
  match json.UnmarshalOrder body Order.zero with
  | .error _ => (⟨400, .error "Invalid request payload"⟩, [])
  | .ok order =>
    if js.ready = false ∧ js.create = false then
      (⟨500, .error "Failed to create JetStream context"⟩, [])
    else
      match json.MarshalOrder order with
      | .error _ => (⟨500, .error "Failed to serialize order data"⟩, [])
      | .ok orderData =>
        if js.publish = false then (⟨500, .error "Failed to publish order data"⟩, [])
        else (⟨200, .orderReceived order.OrderUID⟩, [orderData])

/-- The lines `processOrders` writes to the log. -/
inductive LogLine where
  /-- The line "No new messages, waiting...". -/
  | noNewMessages
  /-- The line "Failed to deserialize order data:". -/
  | failedDeserialize (err : json.UnmarshalError)
  /-- The line "Failed to serialize delivery data:". -/
  | failedDelivery
  /-- The line "Failed to serialize payment data:". -/
  | failedPayment
  /-- The line "Failed to serialize items data:". -/
  | failedItems
  /-- The line "Failed to insert or update order in database:". -/
  | failedInsert
  /-- The line "Order processed:" with the order's id. -/
  | orderProcessed (orderUID : GoString)

/-- What a consumer of the `orders` subject can do to the outside while handling a
    message: write a log line, run the statement on the database, acknowledge the
    message to JetStream (`msg.Ack()`). -/
inductive Effect where
  | log (line : LogLine)
  | exec (row : Row)
  | ack

/-- One turn of the loop as the outside decides it: what `sub.NextMsg(time.Minute)`
    returns (`none` for an error, a timeout among them) and whether the database
    carries out a statement sent to it during the turn. -/
structure Pull where
  msg : Option Bytes
  dbOk : Bool

/-- The arguments `$1 .. $14` of the statement (lines 299-301). -/
def orderRow (order : Order) (delivery payment items : Bytes) : Row :=
  { order_uid := order.OrderUID
    track_number := order.TrackNumber
    entry := order.Entry
    delivery := delivery
    payment := payment
    items := items
    locale := order.Locale
    internal_signature := order.InternalSignature
    customer_id := order.CustomerID
    delivery_service := order.DeliveryService
    shardkey := order.Shardkey
    sm_id := order.SmID
    date_created := order.DateCreated
    oof_shard := order.OofShard }

/-- The body of the loop of `processOrders` (lines 254-305): the table after the
    turn and what the turn did, in order. -/
def processOrders.turn (db : Table) (p : Pull) : Table × List Effect :=
  match p.msg with
  | none => (db, [.log .noNewMessages])
  | some data =>
    match json.UnmarshalOrder data Order.zero with
    | .error err => (db, [.log (.failedDeserialize err)])
    | .ok order =>
      match json.MarshalDelivery order.Delivery with
      | .error _ => (db, [.log .failedDelivery])
      | .ok delivery =>
        match json.MarshalPayment order.Payment with
        | .error _ => (db, [.log .failedPayment])
        | .ok payment =>
          match json.MarshalItems order.Items with
          | .error _ => (db, [.log .failedItems])
          | .ok items =>
            match dbExec p.dbOk db (orderRow order delivery payment items) with
            | .error _ =>
              (db, [.exec (orderRow order delivery payment items), .log .failedInsert])
            | .ok db1 =>
              (db1, [.exec (orderRow order delivery payment items),
                .log (.orderProcessed order.OrderUID)])

/-- The function `processOrders` (lines 246-307) over the turns the loop takes: the
    table after the last of them and everything done, in order.  The loop has no
    exit; a run is given by as many turns as one cares to follow. -/
def processOrders (db : Table) : List Pull → Table × List Effect
  | [] => (db, [])
  | p :: ps =>
    ((processOrders (processOrders.turn db p).1 ps).1,
      (processOrders.turn db p).2 ++ (processOrders (processOrders.turn db p).1 ps).2)

/-- The row the loop stores for an order. -/
def storedRow (order : Order) : Row :=
  orderRow order (.json (json.marshalDelivery order.Delivery))
    (.json (json.marshalPayment order.Payment)) (.json (json.marshalItems order.Items))

/-- The scalar columns of a row scanned into a fresh `Order` (lines 321-323);
    `date_created` comes back as the column `col` gives it. -/
def scanOrder (col : DateColumn) (row : Row) : Order :=
  { Order.zero with
    OrderUID := row.order_uid
    TrackNumber := row.track_number
    Entry := row.entry
    Locale := row.locale
    InternalSignature := row.internal_signature
    CustomerID := row.customer_id
    DeliveryService := row.delivery_service
    Shardkey := row.shardkey
    SmID := row.sm_id
    DateCreated := col row.date_created
    OofShard := row.oof_shard }

/-- The three `json.Unmarshal` calls on the nested columns of a scanned row (lines
    330-341 and 370-384): the order, or the message of the call that failed. -/
def unmarshalRow (col : DateColumn) (row : Row) : Except String Order :=
  match json.UnmarshalDelivery row.delivery (scanOrder col row).Delivery with
  | .error _ => .error "Failed to deserialize delivery data"
  | .ok delivery =>
    match json.UnmarshalPayment row.payment (scanOrder col row).Payment with
    | .error _ => .error "Failed to deserialize payment data"
    | .ok payment =>
      match json.UnmarshalItems row.items (scanOrder col row).Items with
      | .error _ => .error "Failed to deserialize items data"
      | .ok items =>
        .ok { scanOrder col row with Delivery := delivery, Payment := payment, Items := items }

/-- The function `getOrderHandler` (lines 310-345) for the path variable `order_uid`;
    `dbOk` says whether the database answers the query and `col` is the column
    `date_created`.  When `Encode` fails nothing is written and the status stays 200. -/
def getOrderHandler (col : DateColumn) (dbOk : Bool) (db : Table) (orderUID : GoString) :
    Response :=
  if orderUID = [] then ⟨400, .error "Order ID is required"⟩
  else
    match (if dbOk then queryRow db orderUID else none) with
    | none => ⟨404, .error "Order not found"⟩
    | some row =>
      match unmarshalRow col row with
      | .error msg => ⟨500, .error msg⟩
      | .ok order =>
        match json.MarshalOrder order with
        | .error _ => ⟨200, .empty⟩
        | .ok data => ⟨200, .json data⟩

/-- The loop `for rows.Next()` of `getAllOrdersHandler` (lines 358-387): `orders`
    starts as a nil slice and `append` makes it a slice with one more element. -/
def getAllOrdersHandler.rows (col : DateColumn) :
    List Row → Option (List Order) → Except String (Option (List Order))
  | [], orders => .ok orders
  | row :: rest, orders =>
    match unmarshalRow col row with
    | .error msg => .error msg
    | .ok order => getAllOrdersHandler.rows col rest (some (orders.getD [] ++ [order]))

/-- The function `getAllOrdersHandler` (lines 348-397); `dbOk` says whether the
    database answers the query and `col` is the column `date_created`.  Of the errors
    of the driver only that of `db.Query` is modelled: `rows.Scan` and `rows.Err`
    succeed. -/
def getAllOrdersHandler (col : DateColumn) (dbOk : Bool) (db : Table) : Response :=
  if dbOk = false then ⟨500, .error "Failed to query orders"⟩
  else
    match getAllOrdersHandler.rows col db none with
    | .error msg => ⟨500, .error msg⟩
    | .ok orders =>
      match json.MarshalOrders orders with
      | .error _ => ⟨200, .empty⟩
      | .ok data => ⟨200, .json data⟩

/-! ## Derived notions used by the statements -/

/-- The JSON members of an object without those that name field `f` of `Order`. -/
def dropField (f : json.OrderField) (members : List (String × JSON)) : List (String × JSON) :=
  members.filter (fun m => decide (json.findField json.orderFields m.1 ≠ some f))

/-- What `processOrders` reads back from what `orderHandler` publishes for an order:
    `json.Marshal(order)` and then `json.Unmarshal` into a fresh `Order`; `none` when
    either call returns an error. -/
def decodeEncoded (o : Order) : Option Order :=
  match json.MarshalOrder o with
  | .error _ => none
  | .ok data =>
    match json.UnmarshalOrder data Order.zero with
    | .error _ => none
    | .ok o1 => some o1

/-- A small order with one item. -/
def sampleOrder : Order :=
  { Order.zero with
    OrderUID := goString "abc123"
    TrackNumber := goString "WBILMTESTTRACK"
    Payment := { Payment.zero with Amount := 1817 }
    Items := some [{ Item.zero with Price := 453, TotalPrice := 317 }]
    DateCreated := ⟨2021, 11, 26, 6, 22, 19, 0, 0⟩ }

/-- A message that holds `sampleOrder`. -/
def sampleData : Bytes :=
  .json (.obj [("order_uid", .str "abc123"), ("track_number", .str "WBILMTESTTRACK"),
    ("payment", .obj [("amount", .num 1817)]),
    ("items", .arr [.obj [("price", .num 453), ("total_price", .num 317)]]),
    ("date_created", .str "2021-11-26T06:22:19Z")])

/-- The turns in which the given messages are pulled one after the other and the
    database carries out every statement. -/
def deliver (msgs : List Bytes) : List Pull := msgs.map (fun m => ⟨some m, true⟩)

/-- The value of member `key` of the JSON object a handler wrote, if it wrote one. -/
def Body.member (key : String) : Body → Option JSON
  | .json (.json (.obj members)) =>
    match members.find? (fun m => m.1 = key) with
    | some m => some m.2
    | none => none
  | _ => none

/-- The order a turn stores: the message decodes and the database carries out the
    statement. -/
def storedBy (p : Pull) : Option Order :=
  match p.msg with
  | none => none
  | some data =>
    match json.UnmarshalOrder data Order.zero with
    | .error _ => none
    | .ok order => if p.dbOk = true then some order else none

/-- The order last upserted under `orderUID` in a run of the loop. -/
def lastUpserted (orderUID : GoString) : List Pull → Option Order
  | [] => none
  | p :: ps =>
    match lastUpserted orderUID ps with
    | some o => some o
    | none =>
      match storedBy p with
      | some o => if o.OrderUID = orderUID then some o else none
      | none => none

/-- An order with a negative amount, a negative price and a negative total price. -/
def negativeOrder : Order :=
  { Order.zero with
    OrderUID := goString "abc123"
    Payment := { Payment.zero with Amount := -5 }
    Items := some [{ Item.zero with Price := -1, TotalPrice := -2 }] }

/-- A payload that holds `negativeOrder`. -/
def negativeData : Bytes :=
  .json (.obj [("order_uid", .str "abc123"), ("payment", .obj [("amount", .num (-5))]),
    ("items", .arr [.obj [("price", .num (-1)), ("total_price", .num (-2))]])])

/-- A payload with no `items` member. -/
def noItemsData : Bytes :=
  .json (.obj [("order_uid", .str "abc123"), ("delivery", .obj []), ("payment", .obj [])])

/-- A payload whose `items` member is `null`. -/
def nullItemsData : Bytes :=
  .json (.obj [("order_uid", .str "abc123"), ("delivery", .obj []), ("payment", .obj []),
    ("items", .null)])

/-- A payload whose `items` member is `[]`. -/
def emptyItemsData : Bytes :=
  .json (.obj [("order_uid", .str "abc123"), ("delivery", .obj []), ("payment", .obj []),
    ("items", .arr [])])

/-- A row whose delivery column holds a JSON string and not an object. -/
def brokenRow : Row := { storedRow sampleOrder with delivery := .json (.str "x") }

/-! ## UTF-8: encoding then decoding -/

theorem char_cases (c : Char) : c.toNat < 0xD800 ∨ (0xDFFF < c.toNat ∧ c.toNat < 0x110000) := by
  have := c.valid
  simpa [UInt32.isValidChar, Nat.isValidChar, Char.toNat] using this

theorem byte_val {n : Nat} (h : n < 256) : (byte n).val = n := by
  simp [byte, Nat.mod_eq_of_lt h]

theorem isCont_byte (k : Nat) (h : k < 64) : isCont (byte (0x80 + k)) = true := by
  have hv : (byte (0x80 + k)).val = 0x80 + k := byte_val (by omega)
  simp only [isCont, hv, Bool.and_eq_true, decide_eq_true_eq]
  omega

theorem decodeRune_encodeRune (c : Char) (rest : List Byte) :
    decodeRune (encodeRune c ++ rest) = (c, (encodeRune c).length) := by
  have hc := char_cases c
  have hof : Char.ofNat c.toNat = c := Char.ofNat_toNat c
  generalize hn : c.toNat = n at hc hof
  unfold encodeRune
  simp only [hn]
  by_cases h1 : n < 0x80
  · have hv : (byte n).val = n := byte_val (by omega)
    simp only [h1, if_true, List.cons_append, List.nil_append, decodeRune, hv, hof, List.length]
  · by_cases h2 : n < 0x800
    · have hv : (byte (0xC0 + n / 64)).val = 0xC0 + n / 64 := byte_val (by omega)
      have hv1 : (byte (0x80 + n % 64)).val = 0x80 + n % 64 := byte_val (by omega)
      have hcont := isCont_byte (n % 64) (by omega)
      have e : (0xC0 + n / 64) % 32 * 64 + (0x80 + n % 64) % 64 = n := by omega
      simp only [h1, h2, if_true, if_false, List.cons_append, List.nil_append, decodeRune, hv, hv1,
        hcont, e, hof, List.length]
      rw [if_neg (by omega), if_pos (by omega)]
    · by_cases h3 : n < 0x10000
      · have hv : (byte (0xE0 + n / 4096)).val = 0xE0 + n / 4096 := byte_val (by omega)
        have hv1 : (byte (0x80 + n / 64 % 64)).val = 0x80 + n / 64 % 64 := byte_val (by omega)
        have hv2 : (byte (0x80 + n % 64)).val = 0x80 + n % 64 := byte_val (by omega)
        have hcont := isCont_byte (n % 64) (by omega)
        have hsec : secondOK (byte (0xE0 + n / 4096)) (byte (0x80 + n / 64 % 64)) = true := by
          simp only [secondOK, isCont, hv, hv1]
          split_ifs <;> simp only [Bool.and_eq_true, decide_eq_true_eq] <;> omega
        have e : (0xE0 + n / 4096) % 16 * 4096 + (0x80 + n / 64 % 64) % 64 * 64
            + (0x80 + n % 64) % 64 = n := by omega
        simp only [h1, h2, h3, if_true, if_false, List.cons_append, List.nil_append, decodeRune, hv,
          hv1, hv2, hcont, hsec, e, hof, List.length, Bool.and_self]
        rw [if_neg (by omega), if_neg (by omega), if_pos (by omega)]
      · have hv : (byte (0xF0 + n / 262144)).val = 0xF0 + n / 262144 := byte_val (by omega)
        have hv1 : (byte (0x80 + n / 4096 % 64)).val = 0x80 + n / 4096 % 64 := byte_val (by omega)
        have hv2 : (byte (0x80 + n / 64 % 64)).val = 0x80 + n / 64 % 64 := byte_val (by omega)
        have hv3 : (byte (0x80 + n % 64)).val = 0x80 + n % 64 := byte_val (by omega)
        have hcont := isCont_byte (n % 64) (by omega)
        have hcont2 := isCont_byte (n / 64 % 64) (by omega)
        have hsec : secondOK (byte (0xF0 + n / 262144)) (byte (0x80 + n / 4096 % 64)) = true := by
          simp only [secondOK, isCont, hv, hv1]
          split_ifs <;> simp only [Bool.and_eq_true, decide_eq_true_eq] <;> omega
        have e : (0xF0 + n / 262144) % 8 * 262144 + (0x80 + n / 4096 % 64) % 64 * 4096
            + (0x80 + n / 64 % 64) % 64 * 64 + (0x80 + n % 64) % 64 = n := by omega
        simp only [h1, h2, h3, if_true, if_false, List.cons_append, List.nil_append, decodeRune, hv,
          hv1, hv2, hv3, hcont, hcont2, hsec, e, hof, List.length, Bool.and_self]
        rw [if_neg (by omega), if_neg (by omega), if_neg (by omega), if_pos (by omega)]

theorem encodeRune_length_pos (c : Char) : 0 < (encodeRune c).length := by
  unfold encodeRune
  simp only
  split_ifs <;> simp

theorem encodeRune_ne_nil (c : Char) : encodeRune c ≠ [] := by
  intro h
  have := encodeRune_length_pos c
  rw [h] at this
  exact absurd this (by decide)

theorem toValidUTF8Aux_encode (cs : List Char) :
    ∀ fuel, (utf8Encode cs).length ≤ fuel → toValidUTF8Aux fuel (utf8Encode cs) = cs := by
  induction cs with
  | nil =>
    intro fuel _
    cases fuel <;> rfl
  | cons c cs ih =>
    intro fuel hf
    have hlen := encodeRune_length_pos c
    have hcons : utf8Encode (c :: cs) = encodeRune c ++ utf8Encode cs := by
      simp [utf8Encode]
    rw [hcons] at hf ⊢
    rw [List.length_append] at hf
    cases fuel with
    | zero => omega
    | succ fuel =>
      cases hx : encodeRune c ++ utf8Encode cs with
      | nil =>
        have := congrArg List.length hx
        simp at this
        exact absurd this.1 (encodeRune_ne_nil c)
      | cons b bs =>
        simp only [toValidUTF8Aux]
        rw [← hx, decodeRune_encodeRune]
        simp only [List.drop_left]
        rw [ih fuel (by omega)]

theorem toValidUTF8_utf8Encode (cs : List Char) : toValidUTF8 (utf8Encode cs) = cs :=
  toValidUTF8Aux_encode cs _ (Nat.le_refl _)

/-! ## RFC 3339: writing then reading -/

theorem isDigit_digitChar {d : Nat} (h : d < 10) : isDigit (digitChar d) = true := by
  interval_cases d <;> decide

theorem toNat_digitChar {d : Nat} (h : d < 10) : (digitChar d).toNat - 48 = d := by
  interval_cases d <;> decide

theorem parseUint_two (n lo hi : Nat) (h : n < 100) (hlo : lo ≤ n) (hhi : n ≤ hi) :
    parseUint [digitChar (n / 10 % 10), digitChar (n % 10)] lo hi = some n := by
  have h1 : n / 10 % 10 < 10 := Nat.mod_lt _ (by decide)
  have h2 : n % 10 < 10 := Nat.mod_lt _ (by decide)
  have e : 10 * (10 * 0 + n / 10 % 10) + n % 10 = n := by omega
  simp only [parseUint, List.all_cons, List.all_nil, isDigit_digitChar h1, isDigit_digitChar h2,
    Bool.and_self, if_true, List.map, toNat_digitChar h1, toNat_digitChar h2, digitsVal,
    List.foldl, e]
  rw [if_pos ⟨hlo, hhi⟩]

theorem parseUint_four (n lo hi : Nat) (h : n < 10000) (hlo : lo ≤ n) (hhi : n ≤ hi) :
    parseUint [digitChar (n / 1000 % 10), digitChar (n / 100 % 10), digitChar (n / 10 % 10),
      digitChar (n % 10)] lo hi = some n := by
  have h0 : n / 1000 % 10 < 10 := Nat.mod_lt _ (by decide)
  have h1 : n / 100 % 10 < 10 := Nat.mod_lt _ (by decide)
  have h2 : n / 10 % 10 < 10 := Nat.mod_lt _ (by decide)
  have h3 : n % 10 < 10 := Nat.mod_lt _ (by decide)
  have e : 10 * (10 * (10 * (10 * 0 + n / 1000 % 10) + n / 100 % 10) + n / 10 % 10) + n % 10
      = n := by omega
  simp only [parseUint, List.all_cons, List.all_nil, isDigit_digitChar h0, isDigit_digitChar h1,
    isDigit_digitChar h2, isDigit_digitChar h3, Bool.and_self, if_true, List.map,
    toNat_digitChar h0, toNat_digitChar h1, toNat_digitChar h2, toNat_digitChar h3, digitsVal,
    List.foldl, e]
  rw [if_pos ⟨hlo, hhi⟩]

theorem digitsVal_append_zero (l : List Nat) : digitsVal (l ++ [0]) = 10 * digitsVal l := by
  simp [digitsVal, List.foldl_append]

theorem digitsVal_rdropWhile (ds : List Nat) :
    digitsVal (ds.rdropWhile (fun d => d == 0))
      * 10 ^ (ds.length - (ds.rdropWhile (fun d => d == 0)).length) = digitsVal ds := by
  induction ds using List.reverseRecOn with
  | nil => simp [digitsVal]
  | append_singleton l x ih =>
    by_cases hx : x = 0
    · subst hx
      rw [List.rdropWhile_concat_pos _ _ _ (by simp), digitsVal_append_zero]
      have hle : (l.rdropWhile (fun d => d == 0)).length ≤ l.length :=
        (List.rdropWhile_prefix _ l).length_le
      have e : (l ++ [0]).length - (l.rdropWhile (fun d => d == 0)).length
          = (l.length - (l.rdropWhile (fun d => d == 0)).length) + 1 := by
        simp only [List.length_append, List.length_singleton]
        omega
      rw [e, pow_succ, ← mul_assoc, ih]
      ring
    · rw [List.rdropWhile_concat_neg _ _ _ (by simpa using hx)]
      simp

theorem map_toNat_digitChar (ds : List Nat) (h : ∀ d ∈ ds, d < 10) :
    (ds.map digitChar).map (fun c => c.toNat - 48) = ds := by
  induction ds with
  | nil => rfl
  | cons d ds ih =>
    simp only [List.map_cons, toNat_digitChar (h d (List.mem_cons_self _ _))]
    rw [ih (fun x hx => h x (List.mem_cons_of_mem _ hx))]

theorem appendZone_head_not_digit (off : Int) :
    ∃ c tl, appendZone off = c :: tl ∧ isDigit c = false ∧ c ≠ '.' := by
  by_cases h : off = 0
  · exact ⟨'Z', [], by simp [appendZone, h], by decide, by decide⟩
  · by_cases hn : off < 0 ∧ off.natAbs / 60 ≠ 0
    · exact ⟨'-', (appendZone off).tail, by simp only [appendZone, h, if_pos hn, if_false,
        List.tail_cons], by decide, by decide⟩
    · exact ⟨'+', (appendZone off).tail, by simp only [appendZone, h, if_neg hn, if_false,
        List.tail_cons], by decide, by decide⟩

theorem appendZone_length (off : Int) : (appendZone off).length = 1 ∨ (appendZone off).length = 6 := by
  unfold appendZone
  split_ifs <;> simp

theorem digitsVal_nanoDigits {ns : Nat} (h : ns < 1000000000) : digitsVal (nanoDigits ns) = ns := by
  simp only [nanoDigits, digitsVal, List.foldl]
  omega

theorem parseFraction_appendNano {ns : Nat} (h : ns < 1000000000) (off : Int) :
    parseFraction false (appendNano ns ++ appendZone off) = (ns, appendZone off) := by
  obtain ⟨c, tl, hz, hcd, hcdot⟩ := appendZone_head_not_digit off
  by_cases h0 : ns = 0
  · subst h0
    simp only [appendNano, if_true, List.nil_append, hz]
    cases tl with
    | nil => rfl
    | cons c1 tl => simp [parseFraction, hcdot]
  · generalize hdsn : nanoDigits ns = ds
    have hlt : ∀ d ∈ ds, d < 10 := by
      intro d hd
      rw [← hdsn] at hd
      simp only [nanoDigits, List.mem_cons, List.mem_singleton, List.not_mem_nil, or_false] at hd
      omega
    have hval : digitsVal ds = ns := hdsn ▸ digitsVal_nanoDigits h
    have hlen : ds.length = 9 := by rw [← hdsn]; rfl
    generalize htr : ds.rdropWhile (fun d => d == 0) = tr
    have hpre : tr <+: ds := htr ▸ List.rdropWhile_prefix _ ds
    have htrlt : ∀ d ∈ tr, d < 10 := fun d hd => hlt d (hpre.subset hd)
    have htrne : tr ≠ [] := by
      intro hnil
      have := digitsVal_rdropWhile ds
      rw [htr, hnil, hval] at this
      simp [digitsVal] at this
      exact h0 this.symm
    have hnano : appendNano ns = '.' :: tr.map digitChar := by
      simp only [appendNano, h0, if_false, hdsn, htr]
    obtain ⟨d, tr', htr'⟩ := List.exists_cons_of_ne_nil htrne
    have hall : ∀ a ∈ tr.map digitChar, isDigit a = true := by
      intro a ha
      obtain ⟨x, hx, rfl⟩ := List.mem_map.1 ha
      exact isDigit_digitChar (htrlt x hx)
    have htake : (tr.map digitChar ++ c :: tl).takeWhile isDigit = tr.map digitChar := by
      rw [List.takeWhile_append_of_pos hall]
      simp [List.takeWhile, hcd]
    have hdrop : (tr.map digitChar ++ c :: tl).dropWhile isDigit = c :: tl := by
      rw [List.dropWhile_append_of_pos hall]
      simp [List.dropWhile, hcd]
    have hd1 : isDigit (digitChar d) = true :=
      isDigit_digitChar (htrlt d (by rw [htr']; exact List.mem_cons_self _ _))
    have hshape : appendNano ns ++ appendZone off
        = '.' :: digitChar d :: (tr'.map digitChar ++ c :: tl) := by
      rw [hnano, hz, htr']
      simp
    have hcons : digitChar d :: (tr'.map digitChar ++ c :: tl) = tr.map digitChar ++ c :: tl := by
      rw [htr']
      simp
    rw [hshape]
    simp only [parseFraction, hd1, and_self, if_true, true_and, true_or]
    rw [hcons, htake, hdrop, hz]
    have hle : tr.length ≤ 9 := hlen ▸ hpre.length_le
    have htk : (tr.map digitChar).take 9 = tr.map digitChar := by
      apply List.take_of_length_le
      simpa using hle
    have hfin : parseNanoseconds (tr.map digitChar) = ns := by
      simp only [parseNanoseconds, htk, map_toNat_digitChar tr htrlt]
      have := digitsVal_rdropWhile ds
      rw [htr, hlen, hval] at this
      exact this
    rw [hfin]

theorem parseZone_appendZone {off : Int} (hm : off % 60 = 0) (hr : off.natAbs / 60 / 60 < 24) :
    parseZone 23 59 (appendZone off) = some off := by
  by_cases h : off = 0
  · subst h
    rfl
  · have hh := parseUint_two (off.natAbs / 60 / 60) 0 23 (by omega)
      (Nat.zero_le _) (by omega)
    have hmm := parseUint_two (off.natAbs / 60 % 60) 0 59 (by omega)
      (Nat.zero_le _) (by omega)
    by_cases hn : off < 0
    · have hz : off < 0 ∧ off.natAbs / 60 ≠ 0 := ⟨hn, by omega⟩
      simp only [appendZone, h, if_pos hz, if_true, if_false, parseZone, hh, hmm, true_or, and_self]
      congr 1
      omega
    · have hs : ('+' = '-') = False := by decide
      have hz : ¬ (off < 0 ∧ off.natAbs / 60 ≠ 0) := fun hc => hn hc.1
      simp only [appendZone, h, if_neg hz, if_false, parseZone, hh, hmm, or_true, and_self, if_true,
        hs]
      congr 1
      omega

theorem parseRFC3339_format {t : Time} (h : t.Encodable) :
    parseRFC3339 (formatRFC3339Nano t) = some t := by
  obtain ⟨⟨hm1, hm2, hd1, hd2, hh, hmi, hs, hns⟩, hy0, hy1, hz0, hz1⟩ := h
  have ey : ((t.year.toNat : Nat) : Int) = t.year := Int.toNat_of_nonneg hy0
  have hylt : t.year.toNat < 10000 := by omega
  have py := parseUint_four t.year.toNat 0 9999 hylt (Nat.zero_le _)
    (by omega)
  have pm := parseUint_two t.month 1 12 (by omega) hm1 hm2
  have hdi : daysIn t.month t.year ≤ 31 := by
    unfold daysIn
    split_ifs <;> omega
  have pd := parseUint_two t.day 1 (daysIn t.month t.year) (by omega) hd1 hd2
  have ph := parseUint_two t.hour 0 23 (by omega) (Nat.zero_le _) (by omega)
  have pmi := parseUint_two t.minute 0 59 (by omega) (Nat.zero_le _)
    (by omega)
  have ps := parseUint_two t.second 0 59 (by omega) (Nat.zero_le _)
    (by omega)
  simp only [formatRFC3339Nano, parseRFC3339, py, pm, ey, pd, ph, pmi, ps, and_self, if_true,
    parseFraction_appendNano hns, parseZone_appendZone hz0 hz1]

theorem parseStrictRFC3339_format {t : Time} (h : t.Encodable) :
    parseStrictRFC3339 (formatRFC3339Nano t) = some t := by
  simp only [parseStrictRFC3339, parseRFC3339_format h]

theorem Time.MarshalJSON_ok {t : Time} (h : t.Encodable) :
    t.MarshalJSON = .ok (formatRFC3339Nano t) := by
  obtain ⟨_, hy0, hy1, _, hz1⟩ := h
  unfold Time.MarshalJSON
  rw [if_neg (by omega), if_neg (by omega)]

theorem parseUint_bounds {cs : List Char} {lo hi n : Nat} (h : parseUint cs lo hi = some n) :
    lo ≤ n ∧ n ≤ hi := by
  simp only [parseUint] at h
  split_ifs at h with h1 h2
  simp only [Option.some.injEq] at h
  exact h ▸ h2

theorem digitsVal_concat (l : List Nat) (d : Nat) : digitsVal (l ++ [d]) = 10 * digitsVal l + d := by
  simp [digitsVal, List.foldl_append]

theorem digitsVal_lt (ds : List Nat) (h : ∀ d ∈ ds, d < 10) : digitsVal ds < 10 ^ ds.length := by
  induction ds using List.reverseRecOn with
  | nil => simp [digitsVal]
  | append_singleton l x ih =>
    have hx : x < 10 := h x (by simp)
    have hl := ih (fun d hd => h d (by simp [hd]))
    rw [digitsVal_concat, List.length_append, List.length_singleton, pow_succ]
    omega

theorem parseNanoseconds_lt (cs : List Char) (h : ∀ c ∈ cs, isDigit c = true) :
    parseNanoseconds cs < 1000000000 := by
  unfold parseNanoseconds
  generalize hds : (cs.take 9).map (fun c => c.toNat - 48) = ds
  have hlen : ds.length ≤ 9 := by
    rw [← hds, List.length_map, List.length_take]
    omega
  have hlt : ∀ d ∈ ds, d < 10 := by
    intro d hd
    rw [← hds] at hd
    obtain ⟨c, hc, rfl⟩ := List.mem_map.1 hd
    have := h c (List.mem_of_mem_take hc)
    simp only [isDigit, Bool.and_eq_true, decide_eq_true_eq] at this
    omega
  have hv := digitsVal_lt ds hlt
  have hp : 10 ^ ds.length * 10 ^ (9 - ds.length) = 1000000000 := by
    rw [← pow_add, Nat.add_sub_cancel' hlen]
    norm_num
  have hpos : 0 < 10 ^ (9 - ds.length) := pow_pos (by decide) _
  calc digitsVal ds * 10 ^ (9 - ds.length) < 10 ^ ds.length * 10 ^ (9 - ds.length) :=
        Nat.mul_lt_mul_of_pos_right hv hpos
    _ = 1000000000 := hp

theorem Time.Encodable.decoded {t : Time} (h : t.Encodable) : t.Decoded :=
  ⟨h.valid, h.year_lo, h.year_hi, h.zone_minutes⟩

theorem Time.Decoded.encodable {t : Time} {text : List Char} (h : t.Decoded)
    (hm : t.MarshalJSON = .ok text) : t.Encodable := by
  refine ⟨h.valid, h.year_lo, h.year_hi, h.zone_minutes, ?_⟩
  unfold Time.MarshalJSON at hm
  split_ifs at hm with h1 h2
  by_cases h0 : t.offset = 0
  · rw [h0]
    decide
  · by_contra hc
    exact h2 ⟨h0, by omega⟩

theorem parseFraction_lt (comma : Bool) (cs : List Char) :
    (parseFraction comma cs).1 < 1000000000 := by
  unfold parseFraction
  split
  · split_ifs
    · exact parseNanoseconds_lt _ (fun c hc => (List.mem_takeWhile_imp hc))
    · exact Nat.zero_lt_succ _
  · exact Nat.zero_lt_succ _

theorem parseZone_sound {hourMax minuteMax : Nat} {cs : List Char} {off : Int}
    (h : parseZone hourMax minuteMax cs = some off) : off % 60 = 0 := by
  unfold parseZone at h
  split at h
  · split_ifs at h
    simp only [Option.some.injEq] at h
    subst h
    decide
  · rename_i sg h0 h1 colon m0 m1
    by_cases hc : (sg = '-' ∨ sg = '+') ∧ colon = ':'
    · rw [if_pos hc] at h
      split at h
      · rename_i hr mm hhr hmm
        simp only [Option.some.injEq] at h
        subst h
        split_ifs <;> omega
      · exact absurd h (by simp)
    · rw [if_neg hc] at h
      exact absurd h (by simp)
  · exact absurd h (by simp)

theorem parseRFC3339_sound {cs : List Char} {t : Time} (h : parseRFC3339 cs = some t) :
    t.Decoded := by
  unfold parseRFC3339 at h
  split at h
  · rename_i rest
    split at h
    · rename_i year month hy hmo
      split at h
      · rename_i day hour mi sec hd hh hmi hs
        split_ifs at h
        split at h
        · rename_i off hoff
          simp only [Option.some.injEq] at h
          subst h
          have by_ := parseUint_bounds hy
          have bm := parseUint_bounds hmo
          have bd := parseUint_bounds hd
          have bh := parseUint_bounds hh
          have bmi := parseUint_bounds hmi
          have bs := parseUint_bounds hs
          have bz := parseZone_sound hoff
          have bn := parseFraction_lt false rest
          refine ⟨⟨bm.1, bm.2, bd.1, bd.2, ?_, ?_, ?_, bn⟩, ?_, ?_, bz⟩ <;>
            simp only <;> omega
        · exact absurd h (by simp)
      · exact absurd h (by simp)
    · exact absurd h (by simp)
  · exact absurd h (by simp)

theorem parseLayout_sound {cs : List Char} {t : Time} (h : parseLayout cs = some t) :
    t.Decoded := by
  unfold parseLayout at h
  split at h
  · rename_i y0 y1 y2 y3 s4 m0 m1 s7 d0 d1 s10 rest
    split at h
    · rename_i year month day hour s13 mi0 mi1 s16 s0 s1 rest1 hy hmo hd hh
      split at h
      · rename_i mi sec hmi hs
        by_cases hc : s4 = '-' ∧ s7 = '-' ∧ s10 = 'T' ∧ s13 = ':' ∧ s16 = ':' ∧ hour < 24 ∧
            1 ≤ day ∧ day ≤ daysIn month year
        · rw [if_pos hc] at h
          split at h
          · rename_i off hoff
            simp only [Option.some.injEq] at h
            subst h
            have by_ := parseUint_bounds hy
            have bm := parseUint_bounds hmo
            have bmi := parseUint_bounds hmi
            have bs := parseUint_bounds hs
            have bz := parseZone_sound hoff
            have bn := parseFraction_lt true rest1
            obtain ⟨_, _, _, _, _, c1, c2, c3⟩ := hc
            refine ⟨⟨bm.1, bm.2, c2, c3, c1, ?_, ?_, bn⟩, ?_, ?_, bz⟩ <;>
              simp only <;> omega
          · exact absurd h (by simp)
        · rw [if_neg hc] at h
          exact absurd h (by simp)
      · exact absurd h (by simp)
    · exact absurd h (by simp)
  · exact absurd h (by simp)

theorem parseStrictRFC3339_sound {cs : List Char} {t : Time}
    (h : parseStrictRFC3339 cs = some t) : t.Decoded := by
  unfold parseStrictRFC3339 at h
  split at h
  · rename_i t1 h1
    simp only [Option.some.injEq] at h
    exact h ▸ parseRFC3339_sound h1
  · exact parseLayout_sound h


/-! ## encoding/json: reading what was written -/

namespace json

theorem map_ok {ε α β : Type} (f : α → β) (a : α) : (Except.ok a : Except ε α).map f = .ok (f a) :=
  rfl

theorem map_error {ε α β : Type} (f : α → β) (e : ε) :
    (Except.error e : Except ε α).map f = .error e := rfl

theorem decodeString_marshalString (cur : GoString) {s : GoString} (h : ValidUTF8 s) :
    decodeString cur (marshalString s) = .ok s := by
  obtain ⟨cs, rfl⟩ := h
  simp only [marshalString, decodeString, toValidUTF8_utf8Encode]

theorem decodeInt_num (cur : Int) {n : Int} (h : fitsInt64 n) : decodeInt cur (.num n) = .ok n := by
  simp only [decodeInt, h, if_true]

theorem decodeTime_format (cur : Time) {t : Time} (h : t.Encodable) :
    decodeTime cur (.str (String.mk (formatRFC3339Nano t))) = .ok t := by
  simp only [decodeTime, parseStrictRFC3339_format h]

theorem decodeDelivery_marshalDelivery (cur : Delivery) {d : Delivery} (h : d.Encodable) :
    decodeDelivery cur (marshalDelivery d) = .ok d := by
  obtain ⟨h1, h2, h3, h4, h5, h6, h7⟩ := h
  have f1 : findField deliveryFields "name" = some .name := by decide
  have f2 : findField deliveryFields "phone" = some .phone := by decide
  have f3 : findField deliveryFields "zip" = some .zip := by decide
  have f4 : findField deliveryFields "city" = some .city := by decide
  have f5 : findField deliveryFields "address" = some .address := by decide
  have f6 : findField deliveryFields "region" = some .region := by decide
  have f7 : findField deliveryFields "email" = some .email := by decide
  simp only [decodeDelivery, marshalDelivery, decodeStruct, decodeMembers, f1, f2, f3, f4, f5, f6,
    f7, setDelivery, decodeString_marshalString _ h1, decodeString_marshalString _ h2,
    decodeString_marshalString _ h3, decodeString_marshalString _ h4,
    decodeString_marshalString _ h5, decodeString_marshalString _ h6,
    decodeString_marshalString _ h7, map_ok]

theorem decodePayment_marshalPayment (cur : Payment) {p : Payment} (h : p.Encodable) :
    decodePayment cur (marshalPayment p) = .ok p := by
  obtain ⟨h1, h2, h3, h4, h5, h6, h7, h8, h9, h10⟩ := h
  have f1 : findField paymentFields "transaction" = some .transaction := by decide
  have f2 : findField paymentFields "request_id" = some .request_id := by decide
  have f3 : findField paymentFields "currency" = some .currency := by decide
  have f4 : findField paymentFields "provider" = some .provider := by decide
  have f5 : findField paymentFields "amount" = some .amount := by decide
  have f6 : findField paymentFields "payment_dt" = some .payment_dt := by decide
  have f7 : findField paymentFields "bank" = some .bank := by decide
  have f8 : findField paymentFields "delivery_cost" = some .delivery_cost := by decide
  have f9 : findField paymentFields "goods_total" = some .goods_total := by decide
  have f10 : findField paymentFields "custom_fee" = some .custom_fee := by decide
  simp only [decodePayment, marshalPayment, decodeStruct, decodeMembers, f1, f2, f3, f4, f5, f6,
    f7, f8, f9, f10, setPayment, decodeString_marshalString _ h1, decodeString_marshalString _ h2,
    decodeString_marshalString _ h3, decodeString_marshalString _ h4, decodeInt_num _ h5,
    decodeInt_num _ h6, decodeString_marshalString _ h7, decodeInt_num _ h8, decodeInt_num _ h9,
    decodeInt_num _ h10, map_ok]

theorem decodeItem_marshalItem (cur : Item) {i : Item} (h : i.Encodable) :
    decodeItem cur (marshalItem i) = .ok i := by
  obtain ⟨h1, h2, h3, h4, h5, h6, h7, h8, h9, h10, h11⟩ := h
  have f1 : findField itemFields "chrt_id" = some .chrt_id := by decide
  have f2 : findField itemFields "track_number" = some .track_number := by decide
  have f3 : findField itemFields "price" = some .price := by decide
  have f4 : findField itemFields "rid" = some .rid := by decide
  have f5 : findField itemFields "name" = some .name := by decide
  have f6 : findField itemFields "sale" = some .sale := by decide
  have f7 : findField itemFields "size" = some .size := by decide
  have f8 : findField itemFields "total_price" = some .total_price := by decide
  have f9 : findField itemFields "nm_id" = some .nm_id := by decide
  have f10 : findField itemFields "brand" = some .brand := by decide
  have f11 : findField itemFields "status" = some .status := by decide
  simp only [decodeItem, marshalItem, decodeStruct, decodeMembers, f1, f2, f3, f4, f5, f6, f7, f8,
    f9, f10, f11, setItem, decodeInt_num _ h1, decodeString_marshalString _ h2,
    decodeInt_num _ h3, decodeString_marshalString _ h4, decodeString_marshalString _ h5,
    decodeInt_num _ h6, decodeString_marshalString _ h7, decodeInt_num _ h8, decodeInt_num _ h9,
    decodeString_marshalString _ h10, decodeInt_num _ h11, map_ok]

theorem decodeItemList_marshalItem (xs : List Item) (h : ∀ i ∈ xs, i.Encodable) :
    ∀ backing : List Item, decodeItemList backing (xs.map marshalItem) = .ok xs := by
  induction xs with
  | nil =>
    intro backing
    rfl
  | cons x xs ih =>
    intro backing
    simp only [List.map_cons, decodeItemList,
      decodeItem_marshalItem _ (h x (List.mem_cons_self _ _)),
      ih (fun i hi => h i (List.mem_cons_of_mem _ hi))]

theorem decodeItems_marshalItems (cur : Option (List Item)) (spare : List Item)
    {xs : Option (List Item)} (h : ItemsEncodable xs) :
    ∃ rest, decodeItems cur spare (marshalItems xs) = .ok (xs, rest) := by
  cases xs with
  | none => exact ⟨[], rfl⟩
  | some l =>
    exact ⟨if (l.map marshalItem).isEmpty then []
        else (cur.getD [] ++ spare).drop (l.map marshalItem).length,
      by simp only [marshalItems, decodeItems, decodeItemList_marshalItem l h]⟩

theorem UnmarshalItems_marshalItems (cur : Option (List Item)) {xs : Option (List Item)}
    (h : ItemsEncodable xs) : UnmarshalItems (.json (marshalItems xs)) cur = .ok xs := by
  obtain ⟨rest, hr⟩ := decodeItems_marshalItems cur [] h
  simp only [UnmarshalItems, hr, map_ok]

theorem marshalOrder_ok {o : Order} (h : o.DateCreated.Encodable) :
    marshalOrder o = .ok (.obj [("order_uid", marshalString o.OrderUID),
      ("track_number", marshalString o.TrackNumber), ("entry", marshalString o.Entry),
      ("delivery", marshalDelivery o.Delivery), ("payment", marshalPayment o.Payment),
      ("items", marshalItems o.Items), ("locale", marshalString o.Locale),
      ("internal_signature", marshalString o.InternalSignature),
      ("customer_id", marshalString o.CustomerID),
      ("delivery_service", marshalString o.DeliveryService),
      ("shardkey", marshalString o.Shardkey), ("sm_id", .num o.SmID),
      ("date_created", .str (String.mk (formatRFC3339Nano o.DateCreated))),
      ("oof_shard", marshalString o.OofShard)]) := by
  simp only [marshalOrder, Time.MarshalJSON_ok h]

theorem decodeOrder_marshalOrder (cur : Order) {o : Order} (h : o.Encodable) :
    ∃ doc, marshalOrder o = .ok doc ∧ decodeOrder cur doc = .ok o := by
  refine ⟨_, marshalOrder_ok h.date_created, ?_⟩
  obtain ⟨h1, h2, h3, h4, h5, h6, h7, h8, h9, h10, h11, h12, h13, h14⟩ := h
  have f1 : findField orderFields "order_uid" = some .order_uid := by decide
  have f2 : findField orderFields "track_number" = some .track_number := by decide
  have f3 : findField orderFields "entry" = some .entry := by decide
  have f4 : findField orderFields "delivery" = some .delivery := by decide
  have f5 : findField orderFields "payment" = some .payment := by decide
  have f6 : findField orderFields "items" = some .items := by decide
  have f7 : findField orderFields "locale" = some .locale := by decide
  have f8 : findField orderFields "internal_signature" = some .internal_signature := by decide
  have f9 : findField orderFields "customer_id" = some .customer_id := by decide
  have f10 : findField orderFields "delivery_service" = some .delivery_service := by decide
  have f11 : findField orderFields "shardkey" = some .shardkey := by decide
  have f12 : findField orderFields "sm_id" = some .sm_id := by decide
  have f13 : findField orderFields "date_created" = some .date_created := by decide
  have f14 : findField orderFields "oof_shard" = some .oof_shard := by decide
  obtain ⟨rest, hr⟩ := decodeItems_marshalItems cur.Items [] h6
  simp only [decodeOrder, decodeStruct, decodeMembers, f1, f2, f3, f4, f5, f6, f7, f8, f9, f10,
    f11, f12, f13, f14, setOrder, decodeString_marshalString _ h1,
    decodeString_marshalString _ h2, decodeString_marshalString _ h3,
    decodeDelivery_marshalDelivery _ h4, decodePayment_marshalPayment _ h5,
    hr, decodeString_marshalString _ h7,
    decodeString_marshalString _ h8, decodeString_marshalString _ h9,
    decodeString_marshalString _ h10, decodeString_marshalString _ h11, decodeInt_num _ h12,
    decodeTime_format _ h13, decodeString_marshalString _ h14, map_ok]

/-! ## encoding/json: what the decoder can produce -/

theorem map_eq_ok {ε α β : Type} {f : α → β} {x : Except ε α} {b : β} (h : x.map f = .ok b) :
    ∃ a, x = .ok a ∧ f a = b := by
  cases x with
  | error e => exact absurd h (by simp [Except.map])
  | ok a => exact ⟨a, rfl, by simpa [Except.map] using h⟩

theorem validUTF8_nil : ValidUTF8 [] := ⟨[], rfl⟩

theorem decodeString_valid {cur s : GoString} {v : JSON} (hx : decodeString cur v = .ok s)
    (hcur : ValidUTF8 cur) : ValidUTF8 s := by
  cases v <;> simp only [decodeString, Except.ok.injEq, reduceCtorEq] at hx
  · exact hx ▸ hcur
  · exact ⟨_, hx.symm⟩

theorem decodeInt_fits {cur n : Int} {v : JSON} (hx : decodeInt cur v = .ok n)
    (hcur : fitsInt64 cur) : fitsInt64 n := by
  cases v <;> simp only [decodeInt, Except.ok.injEq, reduceCtorEq] at hx
  · exact hx ▸ hcur
  · split_ifs at hx with hf
    simp only [Except.ok.injEq] at hx
    exact hx ▸ hf

theorem decodeTime_decoded {cur t : Time} {v : JSON} (hx : decodeTime cur v = .ok t)
    (hcur : cur.Decoded) : t.Decoded := by
  cases v <;> simp only [decodeTime, Except.ok.injEq, reduceCtorEq] at hx
  · exact hx ▸ hcur
  · split at hx
    · simp only [Except.ok.injEq] at hx
      exact hx ▸ parseStrictRFC3339_sound (by assumption)
    · exact absurd hx (by simp)

theorem decodeMembers_preserves {S F : Type} (fields : List (String × F))
    (set : S → F → JSON → Except UnmarshalError S) (P : S → Prop)
    (hset : ∀ s f v s1, P s → set s f v = .ok s1 → P s1) :
    ∀ (members : List (String × JSON)) (s s' : S), P s →
      decodeMembers fields set s members = .ok s' → P s' := by
  intro members
  induction members with
  | nil =>
    intro s s' hs h
    simp only [decodeMembers, Except.ok.injEq] at h
    exact h ▸ hs
  | cons m rest ih =>
    intro s s' hs h
    obtain ⟨key, v⟩ := m
    simp only [decodeMembers] at h
    split at h
    · exact ih s s' hs h
    · split at h
      · exact absurd h (by simp)
      · rename_i s1 hs1
        exact ih s1 s' (hset s _ v s1 hs hs1) h

theorem decodeStruct_preserves {S F : Type} (fields : List (String × F))
    (set : S → F → JSON → Except UnmarshalError S) (P : S → Prop)
    (hset : ∀ s f v s1, P s → set s f v = .ok s1 → P s1) {cur s' : S} {v : JSON}
    (h : decodeStruct fields set cur v = .ok s') (hcur : P cur) : P s' := by
  cases v <;> simp only [decodeStruct, Except.ok.injEq, reduceCtorEq] at h
  · exact h ▸ hcur
  · exact decodeMembers_preserves fields set P hset _ _ _ hcur h

theorem setDelivery_encodable (d : Delivery) (f : DeliveryField) (v : JSON) (d1 : Delivery)
    (hd : d.Encodable) (h : setDelivery d f v = .ok d1) : d1.Encodable := by
  obtain ⟨h1, h2, h3, h4, h5, h6, h7⟩ := hd
  cases f <;> simp only [setDelivery] at h <;> obtain ⟨x, hx, rfl⟩ := map_eq_ok h <;>
    refine ⟨?_, ?_, ?_, ?_, ?_, ?_, ?_⟩ <;>
    first
    | assumption
    | exact decodeString_valid hx (by assumption)

theorem decodeDelivery_encodable {cur d : Delivery} {v : JSON} (h : decodeDelivery cur v = .ok d)
    (hcur : cur.Encodable) : d.Encodable :=
  decodeStruct_preserves deliveryFields setDelivery Delivery.Encodable setDelivery_encodable h hcur

theorem setPayment_encodable (p : Payment) (f : PaymentField) (v : JSON) (p1 : Payment)
    (hp : p.Encodable) (h : setPayment p f v = .ok p1) : p1.Encodable := by
  obtain ⟨h1, h2, h3, h4, h5, h6, h7, h8, h9, h10⟩ := hp
  cases f <;> simp only [setPayment] at h <;> obtain ⟨x, hx, rfl⟩ := map_eq_ok h <;>
    refine ⟨?_, ?_, ?_, ?_, ?_, ?_, ?_, ?_, ?_, ?_⟩ <;>
    first
    | assumption
    | exact decodeString_valid hx (by assumption)
    | exact decodeInt_fits hx (by assumption)

theorem decodePayment_encodable {cur p : Payment} {v : JSON} (h : decodePayment cur v = .ok p)
    (hcur : cur.Encodable) : p.Encodable :=
  decodeStruct_preserves paymentFields setPayment Payment.Encodable setPayment_encodable h hcur

theorem setItem_encodable (i : Item) (f : ItemField) (v : JSON) (i1 : Item)
    (hi : i.Encodable) (h : setItem i f v = .ok i1) : i1.Encodable := by
  obtain ⟨h1, h2, h3, h4, h5, h6, h7, h8, h9, h10, h11⟩ := hi
  cases f <;> simp only [setItem] at h <;> obtain ⟨x, hx, rfl⟩ := map_eq_ok h <;>
    refine ⟨?_, ?_, ?_, ?_, ?_, ?_, ?_, ?_, ?_, ?_, ?_⟩ <;>
    first
    | assumption
    | exact decodeString_valid hx (by assumption)
    | exact decodeInt_fits hx (by assumption)

theorem fitsInt64_zero : fitsInt64 0 := by decide

theorem Item_zero_encodable : Item.zero.Encodable :=
  ⟨fitsInt64_zero, validUTF8_nil, fitsInt64_zero, validUTF8_nil, validUTF8_nil, fitsInt64_zero,
    validUTF8_nil, fitsInt64_zero, fitsInt64_zero, validUTF8_nil, fitsInt64_zero⟩

theorem Delivery_zero_encodable : Delivery.zero.Encodable :=
  ⟨validUTF8_nil, validUTF8_nil, validUTF8_nil, validUTF8_nil, validUTF8_nil, validUTF8_nil,
    validUTF8_nil⟩

theorem Payment_zero_encodable : Payment.zero.Encodable :=
  ⟨validUTF8_nil, validUTF8_nil, validUTF8_nil, validUTF8_nil, fitsInt64_zero, fitsInt64_zero,
    validUTF8_nil, fitsInt64_zero, fitsInt64_zero, fitsInt64_zero⟩

theorem Time_zero_encodable : Time.zero.Encodable :=
  ⟨by decide, by decide, by decide, by decide, by decide⟩

theorem Order_zero_encodable : Order.zero.Encodable :=
  ⟨validUTF8_nil, validUTF8_nil, validUTF8_nil, Delivery_zero_encodable, Payment_zero_encodable,
    trivial, validUTF8_nil, validUTF8_nil, validUTF8_nil, validUTF8_nil, validUTF8_nil,
    fitsInt64_zero, Time_zero_encodable, validUTF8_nil⟩

theorem decodeItem_encodable {cur i : Item} {v : JSON} (h : decodeItem cur v = .ok i)
    (hcur : cur.Encodable) : i.Encodable :=
  decodeStruct_preserves itemFields setItem Item.Encodable setItem_encodable h hcur

theorem headD_encodable {backing : List Item} (h : ∀ i ∈ backing, i.Encodable) :
    (backing.headD Item.zero).Encodable := by
  cases backing with
  | nil => exact Item_zero_encodable
  | cons x xs => exact h x (List.mem_cons_self _ _)

theorem decodeItemList_encodable :
    ∀ (vs : List JSON) (backing xs : List Item), (∀ i ∈ backing, i.Encodable) →
      decodeItemList backing vs = .ok xs → ∀ i ∈ xs, i.Encodable := by
  intro vs
  induction vs with
  | nil =>
    intro backing xs _ h i hi
    simp only [decodeItemList, Except.ok.injEq] at h
    subst h
    exact absurd hi (List.not_mem_nil _)
  | cons v vs ih =>
    intro backing xs hb h i hi
    simp only [decodeItemList] at h
    split at h
    · exact absurd h (by simp)
    · rename_i x hx
      split at h
      · exact absurd h (by simp)
      · rename_i rest hrest
        simp only [Except.ok.injEq] at h
        subst h
        rcases List.mem_cons.1 hi with rfl | hi
        · exact decodeItem_encodable hx (headD_encodable hb)
        · exact ih backing.tail rest (fun j hj => hb j (List.mem_of_mem_tail hj)) hrest i hi

theorem backing_encodable {cur : Option (List Item)} {spare : List Item}
    (hcur : ItemsEncodable cur) (hsp : ∀ i ∈ spare, i.Encodable) :
    ∀ i ∈ cur.getD [] ++ spare, i.Encodable := by
  intro i hi
  rcases List.mem_append.1 hi with hi | hi
  · cases cur with
    | none => exact absurd hi (List.not_mem_nil _)
    | some l => exact hcur i hi
  · exact hsp i hi

theorem decodeItems_encodable {cur : Option (List Item)} {spare : List Item}
    {x : Option (List Item) × List Item} {v : JSON} (h : decodeItems cur spare v = .ok x)
    (hcur : ItemsEncodable cur) (hsp : ∀ i ∈ spare, i.Encodable) :
    ItemsEncodable x.1 ∧ ∀ i ∈ x.2, i.Encodable := by
  have hb := backing_encodable hcur hsp
  cases v <;> simp only [decodeItems, Except.ok.injEq, reduceCtorEq] at h
  · subst h
    exact ⟨trivial, fun i hi => absurd hi (List.not_mem_nil _)⟩
  · split at h
    · exact absurd h (by simp)
    · rename_i l hl
      simp only [Except.ok.injEq] at h
      subst h
      refine ⟨decodeItemList_encodable _ _ _ hb hl, ?_⟩
      intro i hi
      simp only at hi
      split_ifs at hi
      · exact absurd hi (List.not_mem_nil _)
      · exact hb i (List.mem_of_mem_drop hi)

theorem decoded_of_encodable {o : Order} (h : o.Encodable) : o.Decoded :=
  ⟨h.order_uid, h.track_number, h.entry, h.delivery, h.payment, h.items, h.locale,
    h.internal_signature, h.customer_id, h.delivery_service, h.shardkey, h.sm_id,
    h.date_created.decoded, h.oof_shard⟩

theorem encodable_of_date {o : Order} (h : o.Decoded)
    (hd : o.DateCreated.Encodable) : o.Encodable :=
  ⟨h.order_uid, h.track_number, h.entry, h.delivery, h.payment, h.items, h.locale,
    h.internal_signature, h.customer_id, h.delivery_service, h.shardkey, h.sm_id, hd,
    h.oof_shard⟩

theorem encodable_of_decoded {o : Order} {data : Bytes} (h : o.Decoded)
    (hm : MarshalOrder o = .ok data) : o.Encodable := by
  cases hd : o.DateCreated.MarshalJSON with
  | error e =>
    simp only [MarshalOrder, marshalOrder, hd] at hm
    exact absurd hm (by simp)
  | ok text => exact encodable_of_date h (h.date_created.encodable hd)

theorem setOrder_decoded (s : Decoding) (f : OrderField) (v : JSON) (s1 : Decoding)
    (hs : s.order.Decoded ∧ ∀ i ∈ s.spare, i.Encodable) (h : setOrder s f v = .ok s1) :
    s1.order.Decoded ∧ ∀ i ∈ s1.spare, i.Encodable := by
  obtain ⟨⟨h1, h2, h3, h4, h5, h6, h7, h8, h9, h10, h11, h12, h13, h14⟩, hsp⟩ := hs
  cases f <;> simp only [setOrder] at h <;> obtain ⟨x, hx, rfl⟩ := map_eq_ok h <;>
    refine ⟨⟨?_, ?_, ?_, ?_, ?_, ?_, ?_, ?_, ?_, ?_, ?_, ?_, ?_, ?_⟩, ?_⟩ <;>
    first
    | assumption
    | exact decodeString_valid hx (by assumption)
    | exact decodeInt_fits hx (by assumption)
    | exact decodeDelivery_encodable hx (by assumption)
    | exact decodePayment_encodable hx (by assumption)
    | exact (decodeItems_encodable hx (by assumption) (by assumption)).1
    | exact (decodeItems_encodable hx (by assumption) (by assumption)).2
    | exact decodeTime_decoded hx (by assumption)

theorem decodeOrder_decoded {cur o : Order} {v : JSON} (h : decodeOrder cur v = .ok o)
    (hcur : cur.Decoded) : o.Decoded := by
  obtain ⟨s, hs, rfl⟩ := map_eq_ok h
  exact (decodeStruct_preserves orderFields setOrder
    (fun s => s.order.Decoded ∧ ∀ i ∈ s.spare, i.Encodable) setOrder_decoded hs
    ⟨hcur, fun i hi => absurd hi (List.not_mem_nil _)⟩).1

theorem UnmarshalOrder_decoded {data : Bytes} {o : Order}
    (h : UnmarshalOrder data Order.zero = .ok o) : o.Decoded := by
  cases data with
  | invalid => exact absurd h (by simp [UnmarshalOrder])
  | json doc => exact decodeOrder_decoded h (decoded_of_encodable Order_zero_encodable)

/-! ## encoding/json: members that are left out -/

theorem MarshalOrder_UnmarshalOrder (cur : Order) {o : Order} (h : o.Encodable) :
    ∃ data, MarshalOrder o = .ok data ∧ UnmarshalOrder data cur = .ok o := by
  obtain ⟨doc, hdoc, hdec⟩ := decodeOrder_marshalOrder cur h
  exact ⟨.json doc, by simp only [MarshalOrder, hdoc], hdec⟩

theorem decodeMembers_append {S F : Type} (fields : List (String × F))
    (set : S → F → JSON → Except UnmarshalError S) :
    ∀ (pre rest : List (String × JSON)) (s s' : S),
      decodeMembers fields set s (pre ++ rest) = .ok s' →
      ∃ s1, decodeMembers fields set s pre = .ok s1 ∧ decodeMembers fields set s1 rest = .ok s' := by
  intro pre
  induction pre with
  | nil =>
    intro rest s s' h
    exact ⟨s, rfl, h⟩
  | cons m pre ih =>
    intro rest s s' h
    obtain ⟨key, v⟩ := m
    rw [List.cons_append] at h
    cases hf : findField fields key with
    | none =>
      simp only [decodeMembers, hf] at h ⊢
      exact ih rest s s' h
    | some f =>
      cases hs1 : set s f v with
      | error e =>
        simp only [decodeMembers, hf, hs1] at h
        exact absurd h (by simp)
      | ok s1 =>
        simp only [decodeMembers, hf, hs1] at h ⊢
        exact ih rest s1 s' h

theorem decodeMembers_drop {S F : Type} [DecidableEq F] (fields : List (String × F))
    (set : S → F → JSON → Except UnmarshalError S) (f : F) (fix : S → S)
    (hother : ∀ s g v s1, g ≠ f → set s g v = .ok s1 → set (fix s) g v = .ok (fix s1))
    (hself : ∀ s v s1, set s f v = .ok s1 → fix s1 = fix s) :
    ∀ (members : List (String × JSON)) (s s' : S),
      decodeMembers fields set s members = .ok s' →
      decodeMembers fields set (fix s)
        (members.filter (fun m => decide (findField fields m.1 ≠ some f))) = .ok (fix s') := by
  intro members
  induction members with
  | nil =>
    intro s s' h
    simp only [decodeMembers, Except.ok.injEq] at h
    subst h
    rfl
  | cons m rest ih =>
    intro s s' h
    obtain ⟨key, v⟩ := m
    simp only [decodeMembers] at h
    split at h
    · rename_i hf
      rw [List.filter_cons_of_pos (by simp [hf])]
      simp only [decodeMembers, hf]
      exact ih s s' h
    · rename_i g hg
      split at h
      · exact absurd h (by simp)
      · rename_i s1 hs1
        by_cases hgf : g = f
        · subst hgf
          rw [List.filter_cons_of_neg (by simp [hg])]
          rw [← hself s v s1 hs1]
          exact ih s1 s' h
        · rw [List.filter_cons_of_pos (by simp [hg, hgf])]
          simp only [decodeMembers, hg, hother s g v s1 hgf hs1]
          exact ih s1 s' h

theorem setOrder_delivery_other (d : Delivery) (s : Decoding) (g : OrderField) (v : JSON)
    (s1 : Decoding) (hg : g ≠ .delivery) (h : setOrder s g v = .ok s1) :
    setOrder ⟨{ s.order with Delivery := d }, s.spare⟩ g v
      = .ok ⟨{ s1.order with Delivery := d }, s1.spare⟩ := by
  cases g <;> first
    | exact absurd rfl hg
    | (simp only [setOrder] at h ⊢
       obtain ⟨x, hx, rfl⟩ := map_eq_ok h
       simp only [hx, map_ok])

theorem setOrder_payment_other (p : Payment) (s : Decoding) (g : OrderField) (v : JSON)
    (s1 : Decoding) (hg : g ≠ .payment) (h : setOrder s g v = .ok s1) :
    setOrder ⟨{ s.order with Payment := p }, s.spare⟩ g v
      = .ok ⟨{ s1.order with Payment := p }, s1.spare⟩ := by
  cases g <;> first
    | exact absurd rfl hg
    | (simp only [setOrder] at h ⊢
       obtain ⟨x, hx, rfl⟩ := map_eq_ok h
       simp only [hx, map_ok])

theorem setOrder_order_uid_other (u : GoString) (s : Decoding) (g : OrderField) (v : JSON)
    (s1 : Decoding) (hg : g ≠ .order_uid) (h : setOrder s g v = .ok s1) :
    setOrder ⟨{ s.order with OrderUID := u }, s.spare⟩ g v
      = .ok ⟨{ s1.order with OrderUID := u }, s1.spare⟩ := by
  cases g <;> first
    | exact absurd rfl hg
    | (simp only [setOrder] at h ⊢
       obtain ⟨x, hx, rfl⟩ := map_eq_ok h
       simp only [hx, map_ok])

theorem setOrder_items_other (i : Option (List Item)) (sp : List Item) (s : Decoding)
    (g : OrderField) (v : JSON) (s1 : Decoding) (hg : g ≠ .items)
    (h : setOrder s g v = .ok s1) :
    setOrder ⟨{ s.order with Items := i }, sp⟩ g v = .ok ⟨{ s1.order with Items := i }, sp⟩ := by
  cases g <;> first
    | exact absurd rfl hg
    | (simp only [setOrder] at h ⊢
       obtain ⟨x, hx, rfl⟩ := map_eq_ok h
       simp only [hx, map_ok])

theorem UnmarshalOrder_members {members : List (String × JSON)} {o : Order}
    (h : UnmarshalOrder (.json (.obj members)) Order.zero = .ok o) :
    ∃ s : Decoding, decodeMembers orderFields setOrder ⟨Order.zero, []⟩ members = .ok s ∧
      s.order = o :=
  map_eq_ok h

theorem UnmarshalOrder_drop_delivery {members : List (String × JSON)} {o : Order}
    (h : UnmarshalOrder (.json (.obj members)) Order.zero = .ok o) :
    UnmarshalOrder (.json (.obj (dropField .delivery members))) Order.zero
      = .ok { o with Delivery := Delivery.zero } := by
  obtain ⟨s, hs, rfl⟩ := UnmarshalOrder_members h
  have := decodeMembers_drop orderFields setOrder .delivery
    (fun s => ⟨{ s.order with Delivery := Delivery.zero }, s.spare⟩)
    (fun s g v s1 hg hs => setOrder_delivery_other _ s g v s1 hg hs)
    (fun s v s1 hs => by
      simp only [setOrder] at hs
      obtain ⟨x, _, rfl⟩ := map_eq_ok hs
      rfl)
    members ⟨Order.zero, []⟩ s hs
  simp only [UnmarshalOrder, decodeOrder, decodeStruct, dropField]
  exact congrArg (Except.map (fun s => s.order)) this

theorem UnmarshalOrder_drop_payment {members : List (String × JSON)} {o : Order}
    (h : UnmarshalOrder (.json (.obj members)) Order.zero = .ok o) :
    UnmarshalOrder (.json (.obj (dropField .payment members))) Order.zero
      = .ok { o with Payment := Payment.zero } := by
  obtain ⟨s, hs, rfl⟩ := UnmarshalOrder_members h
  have := decodeMembers_drop orderFields setOrder .payment
    (fun s => ⟨{ s.order with Payment := Payment.zero }, s.spare⟩)
    (fun s g v s1 hg hs => setOrder_payment_other _ s g v s1 hg hs)
    (fun s v s1 hs => by
      simp only [setOrder] at hs
      obtain ⟨x, _, rfl⟩ := map_eq_ok hs
      rfl)
    members ⟨Order.zero, []⟩ s hs
  simp only [UnmarshalOrder, decodeOrder, decodeStruct, dropField]
  exact congrArg (Except.map (fun s => s.order)) this

theorem UnmarshalOrder_drop_order_uid {members : List (String × JSON)} {o : Order}
    (h : UnmarshalOrder (.json (.obj members)) Order.zero = .ok o) :
    UnmarshalOrder (.json (.obj (dropField .order_uid members))) Order.zero
      = .ok { o with OrderUID := [] } := by
  obtain ⟨s, hs, rfl⟩ := UnmarshalOrder_members h
  have := decodeMembers_drop orderFields setOrder .order_uid
    (fun s => ⟨{ s.order with OrderUID := [] }, s.spare⟩)
    (fun s g v s1 hg hs => setOrder_order_uid_other _ s g v s1 hg hs)
    (fun s v s1 hs => by
      simp only [setOrder] at hs
      obtain ⟨x, _, rfl⟩ := map_eq_ok hs
      rfl)
    members ⟨Order.zero, []⟩ s hs
  simp only [UnmarshalOrder, decodeOrder, decodeStruct, dropField]
  exact congrArg (Except.map (fun s => s.order)) this

end json

/-! ## The table under `upsert` -/

theorem onConflictUpdate_eq {x r : Row} (h : x.order_uid = r.order_uid) :
    onConflictUpdate x r = r := by
  cases x
  cases r
  simp only [onConflictUpdate] at h ⊢
  subst h
  rfl

theorem upsert_of_mem {t : Table} {r : Row} (h : ∃ x ∈ t, x.order_uid = r.order_uid) :
    upsert t r = t.map (fun x => if x.order_uid = r.order_uid then r else x) := by
  have hany : t.any (fun x => x.order_uid = r.order_uid) = true := by
    simpa [List.any_eq_true] using h
  simp only [upsert, hany, if_true]
  apply List.map_congr_left
  intro x _
  by_cases hx : x.order_uid = r.order_uid
  · simp only [hx, if_true, onConflictUpdate_eq hx]
  · simp only [hx, if_false]

theorem upsert_of_not_mem {t : Table} {r : Row} (h : ∀ x ∈ t, x.order_uid ≠ r.order_uid) :
    upsert t r = t ++ [r] := by
  have hany : t.any (fun x => x.order_uid = r.order_uid) = false := by
    simpa [List.any_eq_false] using h
  simp only [upsert, hany, Bool.false_eq_true, if_false]

theorem map_replace_of_not_mem {t : Table} {r : Row} (h : ∀ x ∈ t, x.order_uid ≠ r.order_uid) :
    t.map (fun x => if x.order_uid = r.order_uid then r else x) = t := by
  conv_rhs => rw [← List.map_id t]
  apply List.map_congr_left
  intro x hx
  simp only [h x hx, if_false, id]

theorem find_replace (t : Table) (r : Row) (id : GoString)
    (h : ∃ x ∈ t, x.order_uid = r.order_uid) :
    (t.map (fun x => if x.order_uid = r.order_uid then r else x)).find?
        (fun x => x.order_uid = id)
      = if r.order_uid = id then some r else t.find? (fun x => x.order_uid = id) := by
  induction t with
  | nil =>
    obtain ⟨x, hx, _⟩ := h
    exact absurd hx (List.not_mem_nil _)
  | cons y t ih =>
    rw [List.map_cons]
    by_cases hy : y.order_uid = r.order_uid
    · rw [if_pos hy]
      by_cases hr : r.order_uid = id
      · rw [if_pos hr, List.find?_cons_of_pos _ (by simpa using hr)]
      · have hyid : ¬ y.order_uid = id := fun h => hr (hy ▸ h)
        rw [if_neg hr, List.find?_cons_of_neg _ (by simpa using hr),
          List.find?_cons_of_neg _ (by simpa using hyid)]
        by_cases hm : ∃ x ∈ t, x.order_uid = r.order_uid
        · rw [ih hm, if_neg hr]
        · have hn : ∀ x ∈ t, x.order_uid ≠ r.order_uid := fun x hx h => hm ⟨x, hx, h⟩
          rw [map_replace_of_not_mem hn]
    · rw [if_neg hy]
      have hm : ∃ x ∈ t, x.order_uid = r.order_uid := by
        obtain ⟨x, hx, hxr⟩ := h
        rcases List.mem_cons.1 hx with rfl | hx
        · exact absurd hxr hy
        · exact ⟨x, hx, hxr⟩
      by_cases hyid : y.order_uid = id
      · have hr : ¬ r.order_uid = id := fun h => hy (hyid.trans h.symm)
        rw [List.find?_cons_of_pos _ (by simpa using hyid),
          List.find?_cons_of_pos _ (by simpa using hyid), if_neg hr]
      · rw [List.find?_cons_of_neg _ (by simpa using hyid),
          List.find?_cons_of_neg _ (by simpa using hyid), ih hm]

theorem queryRow_upsert (t : Table) (r : Row) (id : GoString) :
    queryRow (upsert t r) id = if r.order_uid = id then some r else queryRow t id := by
  by_cases hm : ∃ x ∈ t, x.order_uid = r.order_uid
  · rw [upsert_of_mem hm]
    exact find_replace t r id hm
  · have hn : ∀ x ∈ t, x.order_uid ≠ r.order_uid := fun x hx h => hm ⟨x, hx, h⟩
    rw [upsert_of_not_mem hn]
    simp only [queryRow, List.find?_append]
    by_cases hr : r.order_uid = id
    · have hnone : t.find? (fun x => decide (x.order_uid = id)) = none := by
        rw [List.find?_eq_none]
        intro x hx
        simpa using fun h => hn x hx (h.trans hr.symm)
      rw [hnone, if_pos hr, List.find?_cons_of_pos _ (by simpa using hr)]
      rfl
    · rw [if_neg hr, List.find?_cons_of_neg _ (by simpa using hr)]
      simp

theorem upsert_idem (t : Table) (r : Row) : upsert (upsert t r) r = upsert t r := by
  by_cases hm : ∃ x ∈ t, x.order_uid = r.order_uid
  · have hm' : ∃ x ∈ upsert t r, x.order_uid = r.order_uid := by
      obtain ⟨x, hx, hxr⟩ := hm
      rw [upsert_of_mem ⟨x, hx, hxr⟩]
      exact ⟨r, List.mem_map.2 ⟨x, hx, by simp [hxr]⟩, rfl⟩
    rw [upsert_of_mem hm', upsert_of_mem hm, List.map_map]
    apply List.map_congr_left
    intro x _
    by_cases hx : x.order_uid = r.order_uid <;> simp [hx]
  · have hn : ∀ x ∈ t, x.order_uid ≠ r.order_uid := fun x hx h => hm ⟨x, hx, h⟩
    have hm' : ∃ x ∈ upsert t r, x.order_uid = r.order_uid := by
      rw [upsert_of_not_mem hn]
      exact ⟨r, by simp, rfl⟩
    rw [upsert_of_mem hm', upsert_of_not_mem hn, List.map_append, map_replace_of_not_mem hn]
    simp

theorem upsert_keys_of_mem {t : Table} {r : Row} (h : ∃ x ∈ t, x.order_uid = r.order_uid) :
    (upsert t r).map (fun x => x.order_uid) = t.map (fun x => x.order_uid) := by
  rw [upsert_of_mem h, List.map_map]
  apply List.map_congr_left
  intro x _
  by_cases hx : x.order_uid = r.order_uid <;> simp [hx]

theorem upsert_unique {t : Table} (r : Row) (h : t.Unique) : (upsert t r).Unique := by
  unfold Table.Unique at h ⊢
  by_cases hm : ∃ x ∈ t, x.order_uid = r.order_uid
  · rw [upsert_keys_of_mem hm]
    exact h
  · have hn : ∀ x ∈ t, x.order_uid ≠ r.order_uid := fun x hx h => hm ⟨x, hx, h⟩
    rw [upsert_of_not_mem hn, List.map_append, List.nodup_append]
    refine ⟨h, by simp, ?_⟩
    intro a ha hb
    simp only [List.map_cons, List.map_nil, List.mem_singleton] at hb
    obtain ⟨x, hx, rfl⟩ := List.mem_map.1 ha
    exact hn x hx hb

theorem filter_of_not_mem {t : Table} {id : GoString} (h : ∀ x ∈ t, x.order_uid ≠ id) :
    t.filter (fun x => x.order_uid = id) = [] := by
  rw [List.filter_eq_nil_iff]
  intro x hx
  simpa using h x hx

theorem filter_replace (t : Table) (r : Row) (hu : t.Unique)
    (h : ∃ x ∈ t, x.order_uid = r.order_uid) :
    (t.map (fun x => if x.order_uid = r.order_uid then r else x)).filter
      (fun x => x.order_uid = r.order_uid) = [r] := by
  induction t with
  | nil =>
    obtain ⟨x, hx, _⟩ := h
    exact absurd hx (List.not_mem_nil _)
  | cons y t ih =>
    have hu' : (y.order_uid ∉ t.map (fun x => x.order_uid)) ∧ Table.Unique t := by
      simpa [Table.Unique] using hu
    rw [List.map_cons]
    by_cases hy : y.order_uid = r.order_uid
    · have hn : ∀ x ∈ t, x.order_uid ≠ r.order_uid := by
        intro x hx hxr
        exact hu'.1 (List.mem_map.2 ⟨x, hx, hxr.trans hy.symm⟩)
      rw [if_pos hy, map_replace_of_not_mem hn, List.filter_cons_of_pos (by simp),
        filter_of_not_mem hn]
    · have hm : ∃ x ∈ t, x.order_uid = r.order_uid := by
        obtain ⟨x, hx, hxr⟩ := h
        rcases List.mem_cons.1 hx with rfl | hx
        · exact absurd hxr hy
        · exact ⟨x, hx, hxr⟩
      rw [if_neg hy, List.filter_cons_of_neg (by simpa using hy), ih hu'.2 hm]

theorem filter_upsert_self {t : Table} (r : Row) (h : t.Unique) :
    (upsert t r).filter (fun x => x.order_uid = r.order_uid) = [r] := by
  by_cases hm : ∃ x ∈ t, x.order_uid = r.order_uid
  · rw [upsert_of_mem hm]
    exact filter_replace t r h hm
  · have hn : ∀ x ∈ t, x.order_uid ≠ r.order_uid := fun x hx h => hm ⟨x, hx, h⟩
    rw [upsert_of_not_mem hn, List.filter_append, filter_of_not_mem hn,
      List.filter_cons_of_pos (by simp)]
    rfl

theorem rowCount_upsert_self {t : Table} (r : Row) (h : t.Unique) :
    rowCount (upsert t r) r.order_uid = 1 := by
  simp only [rowCount, filter_upsert_self r h, List.length_singleton]

theorem upsert_overwrite (t : Table) {r1 r2 : Row} (h : r1.order_uid = r2.order_uid) :
    upsert (upsert t r1) r2 = upsert t r2 := by
  by_cases hm : ∃ x ∈ t, x.order_uid = r1.order_uid
  · have hm2 : ∃ x ∈ t, x.order_uid = r2.order_uid := by
      obtain ⟨x, hx, hxr⟩ := hm
      exact ⟨x, hx, hxr.trans h⟩
    have hm' : ∃ x ∈ upsert t r1, x.order_uid = r2.order_uid := by
      obtain ⟨x, hx, hxr⟩ := hm
      rw [upsert_of_mem ⟨x, hx, hxr⟩]
      exact ⟨r1, List.mem_map.2 ⟨x, hx, by simp [hxr]⟩, h⟩
    rw [upsert_of_mem hm', upsert_of_mem hm, upsert_of_mem hm2, List.map_map]
    apply List.map_congr_left
    intro x _
    by_cases hx : x.order_uid = r1.order_uid
    · simp [hx, h]
    · have hx2 : ¬ x.order_uid = r2.order_uid := fun hx2 => hx (hx2.trans h.symm)
      simp [hx, hx2]
  · have hn : ∀ x ∈ t, x.order_uid ≠ r1.order_uid := fun x hx h => hm ⟨x, hx, h⟩
    have hn2 : ∀ x ∈ t, x.order_uid ≠ r2.order_uid := fun x hx hx2 => hn x hx (hx2.trans h.symm)
    have hm' : ∃ x ∈ upsert t r1, x.order_uid = r2.order_uid := by
      rw [upsert_of_not_mem hn]
      exact ⟨r1, by simp, h⟩
    rw [upsert_of_mem hm', upsert_of_not_mem hn, upsert_of_not_mem hn2, List.map_append,
      map_replace_of_not_mem hn2]
    simp [h]

/-! ## The consumer loop -/

theorem validUTF8_goString (s : String) : ValidUTF8 (goString s) := ⟨s.data, rfl⟩

theorem sampleData_decodes : json.UnmarshalOrder sampleData Order.zero = .ok sampleOrder := by
  decide

theorem sampleOrder_encodable : sampleOrder.Encodable :=
  ⟨validUTF8_goString _, validUTF8_goString _, json.validUTF8_nil, json.Delivery_zero_encodable,
    ⟨json.validUTF8_nil, json.validUTF8_nil, json.validUTF8_nil, json.validUTF8_nil, by decide,
      json.fitsInt64_zero, json.validUTF8_nil, json.fitsInt64_zero, json.fitsInt64_zero,
      json.fitsInt64_zero⟩,
    fun i hi => List.mem_singleton.1 hi ▸
      ⟨json.fitsInt64_zero, json.validUTF8_nil, by decide, json.validUTF8_nil, json.validUTF8_nil,
        json.fitsInt64_zero, json.validUTF8_nil, by decide, json.fitsInt64_zero,
        json.validUTF8_nil, json.fitsInt64_zero⟩,
    json.validUTF8_nil, json.validUTF8_nil, json.validUTF8_nil, json.validUTF8_nil,
    json.validUTF8_nil, json.fitsInt64_zero,
    ⟨by decide, by decide, by decide, by decide, by decide⟩, json.validUTF8_nil⟩

theorem negativeOrder_encodable : negativeOrder.Encodable :=
  ⟨validUTF8_goString _, json.validUTF8_nil, json.validUTF8_nil, json.Delivery_zero_encodable,
    ⟨json.validUTF8_nil, json.validUTF8_nil, json.validUTF8_nil, json.validUTF8_nil, by decide,
      json.fitsInt64_zero, json.validUTF8_nil, json.fitsInt64_zero, json.fitsInt64_zero,
      json.fitsInt64_zero⟩,
    fun i hi => List.mem_singleton.1 hi ▸
      ⟨json.fitsInt64_zero, json.validUTF8_nil, by decide, json.validUTF8_nil, json.validUTF8_nil,
        json.fitsInt64_zero, json.validUTF8_nil, by decide, json.fitsInt64_zero,
        json.validUTF8_nil, json.fitsInt64_zero⟩,
    json.validUTF8_nil, json.validUTF8_nil, json.validUTF8_nil, json.validUTF8_nil,
    json.validUTF8_nil, json.fitsInt64_zero, json.Time_zero_encodable, json.validUTF8_nil⟩

theorem turn_ok (db : Table) (b : Bool) {data : Bytes} {o : Order}
    (h : json.UnmarshalOrder data Order.zero = .ok o) :
    processOrders.turn db ⟨some data, b⟩
      = if b = true then
          (upsert db (storedRow o), [.exec (storedRow o), .log (.orderProcessed o.OrderUID)])
        else (db, [.exec (storedRow o), .log .failedInsert]) := by
  cases b <;>
    simp only [processOrders.turn, h, json.MarshalDelivery, json.MarshalPayment,
      json.MarshalItems, dbExec, storedRow, if_true, if_false, Bool.false_eq_true]

theorem turn_error (db : Table) (b : Bool) {data : Bytes} {e : json.UnmarshalError}
    (h : json.UnmarshalOrder data Order.zero = .error e) :
    processOrders.turn db ⟨some data, b⟩ = (db, [.log (.failedDeserialize e)]) := by
  simp only [processOrders.turn, h]

theorem processOrders_append (db : Table) (ps qs : List Pull) :
    processOrders db (ps ++ qs)
      = ((processOrders (processOrders db ps).1 qs).1,
          (processOrders db ps).2 ++ (processOrders (processOrders db ps).1 qs).2) := by
  induction ps generalizing db with
  | nil => rfl
  | cons p ps ih =>
    rw [List.cons_append]
    simp only [processOrders, ih, List.append_assoc]

theorem turn_no_ack (db : Table) (p : Pull) : Effect.ack ∉ (processOrders.turn db p).2 := by
  unfold processOrders.turn
  repeat' split
  all_goals simp

theorem processOrders_no_ack (pulls : List Pull) :
    ∀ db : Table, Effect.ack ∉ (processOrders db pulls).2 := by
  induction pulls with
  | nil =>
    intro db
    simp [processOrders]
  | cons p ps ih =>
    intro db
    simp only [processOrders, List.mem_append, not_or]
    exact ⟨turn_no_ack db p, ih _⟩

/-! ## The handlers -/

theorem orderHandler_ok {body data : Bytes} {o : Order}
    (h : json.UnmarshalOrder body Order.zero = .ok o) (hm : json.MarshalOrder o = .ok data) :
    orderHandler JetStream.up body = (⟨200, .orderReceived o.OrderUID⟩, [data]) := by
  simp [orderHandler, h, hm, JetStream.up]

theorem orderHandler_error (js : JetStream) {body : Bytes} {e : json.UnmarshalError}
    (h : json.UnmarshalOrder body Order.zero = .error e) :
    orderHandler js body = (⟨400, .error "Invalid request payload"⟩, []) := by
  simp only [orderHandler, h]

theorem orderHandler_400 (js : JetStream) (body : Bytes) :
    (orderHandler js body).1.status = 400 ↔
      ∃ e, json.UnmarshalOrder body Order.zero = .error e := by
  constructor
  · intro h
    cases hu : json.UnmarshalOrder body Order.zero with
    | error e => exact ⟨e, rfl⟩
    | ok o =>
      exfalso
      unfold orderHandler at h
      rw [hu] at h
      simp only at h
      repeat' split at h
      all_goals simp at h
  · rintro ⟨e, he⟩
    rw [orderHandler_error js he]

theorem orderHandler_accepted {body : Bytes} {o : Order}
    (h : json.UnmarshalOrder body Order.zero = .ok o)
    (hacc : (orderHandler JetStream.up body).1.status = 200) :
    ∃ data, json.MarshalOrder o = .ok data := by
  cases hm : json.MarshalOrder o with
  | ok data => exact ⟨data, rfl⟩
  | error e =>
    simp [orderHandler, h, hm, JetStream.up] at hacc

theorem published_decodes {body data : Bytes} {o : Order}
    (h : json.UnmarshalOrder body Order.zero = .ok o) (hm : json.MarshalOrder o = .ok data) :
    json.UnmarshalOrder data Order.zero = .ok o := by
  obtain ⟨data1, hm1, hu⟩ := json.MarshalOrder_UnmarshalOrder Order.zero
    (json.encodable_of_decoded (json.UnmarshalOrder_decoded h) hm)
  rw [hm] at hm1
  rw [Except.ok.inj hm1]
  exact hu

theorem pipeline_ok {body data : Bytes} {o : Order}
    (h : json.UnmarshalOrder body Order.zero = .ok o) (hm : json.MarshalOrder o = .ok data)
    (hu : json.UnmarshalOrder data Order.zero = .ok o) (db : Table) :
    (orderHandler JetStream.up body).1 = ⟨200, .orderReceived o.OrderUID⟩ ∧
      (processOrders db (deliver (orderHandler JetStream.up body).2)).1
        = upsert db (storedRow o) := by
  rw [orderHandler_ok h hm]
  refine ⟨rfl, ?_⟩
  simp only [deliver, List.map, processOrders, turn_ok _ _ hu, if_true]

theorem unmarshalRow_storedRow (col : DateColumn) {o : Order} (hd : o.Delivery.Encodable)
    (hp : o.Payment.Encodable) (hi : ItemsEncodable o.Items) :
    unmarshalRow col (storedRow o) = .ok { o with DateCreated := col o.DateCreated } := by
  have hd := json.decodeDelivery_marshalDelivery Delivery.zero hd
  have hp := json.decodePayment_marshalPayment Payment.zero hp
  have hi := json.UnmarshalItems_marshalItems none hi
  simp only [unmarshalRow, storedRow, orderRow, scanOrder, json.UnmarshalDelivery,
    json.UnmarshalPayment, Order.zero, hd, hp, hi]

theorem getOrderHandler_storedRow (col : DateColumn) {db : Table} {id : GoString} {o : Order}
    (hid : id ≠ []) (hq : queryRow db id = some (storedRow o)) (hd : o.Delivery.Encodable)
    (hp : o.Payment.Encodable) (hi : ItemsEncodable o.Items) :
    (getOrderHandler col true db id).status = 200 ∧
      ∀ data, json.MarshalOrder { o with DateCreated := col o.DateCreated } = .ok data →
        getOrderHandler col true db id = ⟨200, .json data⟩ := by
  have hu := unmarshalRow_storedRow col hd hp hi
  constructor
  · simp only [getOrderHandler, hid, if_false, if_true, hq, hu]
    split <;> rfl
  · intro data hm
    simp only [getOrderHandler, hid, if_false, if_true, hq, hu, hm]

theorem storedBy_decoded {p : Pull} {o : Order} (h : storedBy p = some o) : o.Decoded := by
  unfold storedBy at h
  split at h
  · exact absurd h (by simp)
  · split at h
    · exact absurd h (by simp)
    · rename_i order hu
      split_ifs at h
      simp only [Option.some.injEq] at h
      exact h ▸ json.UnmarshalOrder_decoded hu

theorem turn_table (db : Table) (p : Pull) :
    (processOrders.turn db p).1
      = match storedBy p with
        | some o => upsert db (storedRow o)
        | none => db := by
  obtain ⟨msg, ok⟩ := p
  cases msg with
  | none => rfl
  | some data =>
    cases hu : json.UnmarshalOrder data Order.zero with
    | error e => simp only [turn_error _ _ hu, storedBy, hu]
    | ok o =>
      cases ok <;> simp [turn_ok _ _ hu, storedBy, hu]

theorem lastUpserted_decoded (id : GoString) :
    ∀ (pulls : List Pull) (o : Order), lastUpserted id pulls = some o → o.Decoded := by
  intro pulls
  induction pulls with
  | nil =>
    intro o h
    exact absurd h (by simp [lastUpserted])
  | cons p ps ih =>
    intro o h
    simp only [lastUpserted] at h
    split at h
    · rename_i o1 h1
      simp only [Option.some.injEq] at h
      exact ih o (h ▸ h1)
    · split at h
      · rename_i o1 h1
        split_ifs at h
        simp only [Option.some.injEq] at h
        exact h ▸ storedBy_decoded h1
      · exact absurd h (by simp)

theorem queryRow_processOrders (id : GoString) :
    ∀ (pulls : List Pull) (db : Table),
      queryRow (processOrders db pulls).1 id
        = match lastUpserted id pulls with
          | some o => some (storedRow o)
          | none => queryRow db id := by
  intro pulls
  induction pulls with
  | nil =>
    intro db
    rfl
  | cons p ps ih =>
    intro db
    simp only [processOrders, lastUpserted]
    rw [ih]
    cases hl : lastUpserted id ps with
    | some o => rfl
    | none =>
      simp only
      rw [turn_table]
      cases hs : storedBy p with
      | none => rfl
      | some o =>
        simp only
        rw [queryRow_upsert]
        by_cases ho : o.OrderUID = id
        · simp only [storedRow, orderRow, ho, if_true]
        · simp only [storedRow, orderRow, ho, if_false]

theorem negativeData_decodes : json.UnmarshalOrder negativeData Order.zero = .ok negativeOrder := by
  decide

theorem decodeItemList_length :
    ∀ (vs : List JSON) (backing xs : List Item),
      json.decodeItemList backing vs = .ok xs → xs.length = vs.length := by
  intro vs
  induction vs with
  | nil =>
    intro backing xs h
    simp only [json.decodeItemList, Except.ok.injEq] at h
    subst h
    rfl
  | cons v vs ih =>
    intro backing xs h
    simp only [json.decodeItemList] at h
    split at h
    · exact absurd h (by simp)
    · split at h
      · exact absurd h (by simp)
      · rename_i rest hrest
        simp only [Except.ok.injEq] at h
        subst h
        simp only [List.length_cons, ih _ rest hrest]

theorem items_of_array_member {pre post : List (String × JSON)} {key : String}
    {elems : List JSON} {o : Order}
    (hkey : json.findField json.orderFields key = some .items)
    (hpost : ∀ m ∈ post, json.findField json.orderFields m.1 ≠ some .items)
    (h : json.UnmarshalOrder (.json (.obj (pre ++ (key, .arr elems) :: post))) Order.zero = .ok o) :
    ∃ xs : List Item, o.Items = some xs ∧ xs.length = elems.length := by
  obtain ⟨s, hs, rfl⟩ := json.UnmarshalOrder_members h
  obtain ⟨s1, _, h2⟩ := json.decodeMembers_append json.orderFields json.setOrder pre _ _ _ hs
  simp only [json.decodeMembers, hkey, json.setOrder, json.decodeItems] at h2
  cases hl : json.decodeItemList (s1.order.Items.getD [] ++ s1.spare) elems with
  | error e =>
    simp only [hl, json.map_error] at h2
    exact absurd h2 (by simp)
  | ok xs =>
    simp only [hl, json.map_ok] at h2
    refine ⟨xs, ?_, decodeItemList_length _ _ _ hl⟩
    have hd := json.decodeMembers_drop json.orderFields json.setOrder .items
      (fun t => ⟨{ t.order with Items := some xs },
        if elems.isEmpty then [] else (s1.order.Items.getD [] ++ s1.spare).drop elems.length⟩)
      (fun t g v t1 hg ht => json.setOrder_items_other _ _ t g v t1 hg ht)
      (fun t v t1 ht => by
        simp only [json.setOrder] at ht
        obtain ⟨x, _, rfl⟩ := json.map_eq_ok ht
        rfl)
      post _ s h2
    have hf : post.filter (fun m => decide (json.findField json.orderFields m.1 ≠ some .items))
        = post := by
      rw [List.filter_eq_self]
      intro m hm
      simpa using hpost m hm
    rw [hf] at hd
    simp only at hd
    rw [h2] at hd
    have := Except.ok.inj hd
    rw [this]

theorem member_items_marshalOrder {o : Order} {data : Bytes}
    (hm : json.MarshalOrder o = .ok data) :
    Body.member "items" (.json data) = some (json.marshalItems o.Items) := by
  cases hd : o.DateCreated.MarshalJSON with
  | error e =>
    simp only [json.MarshalOrder, json.marshalOrder, hd] at hm
    exact absurd hm (by simp)
  | ok date =>
    simp only [json.MarshalOrder, json.marshalOrder, hd, Except.ok.injEq] at hm
    subst hm
    rfl

theorem marshalOrderList_ok (os : List Order) (h : ∀ o ∈ os, o.Encodable) :
    ∃ js, json.marshalOrderList os = .ok js ∧ js.length = os.length := by
  induction os with
  | nil => exact ⟨[], rfl, rfl⟩
  | cons o os ih =>
    obtain ⟨js, hjs, hlen⟩ := ih (fun x hx => h x (List.mem_cons_of_mem _ hx))
    obtain ⟨j, hj⟩ : ∃ j, json.marshalOrder o = .ok j :=
      ⟨_, json.marshalOrder_ok (h o (List.mem_cons_self _ _)).date_created⟩
    refine ⟨j :: js, ?_, by simp only [List.length_cons, hlen]⟩
    simp only [json.marshalOrderList, hj, hjs]

theorem rows_storedRow (col : DateColumn) (os : List Order)
    (h : ∀ o ∈ os, ({ o with DateCreated := col o.DateCreated } : Order).Encodable) :
    ∀ acc : Option (List Order),
      getAllOrdersHandler.rows col (os.map storedRow) acc
        = .ok (if os.isEmpty = true then acc
          else some (acc.getD [] ++ os.map (fun o => { o with DateCreated := col o.DateCreated }))) := by
  induction os with
  | nil =>
    intro acc
    rfl
  | cons o os ih =>
    intro acc
    have he := h o (List.mem_cons_self _ _)
    have ho := @unmarshalRow_storedRow col o he.delivery he.payment he.items
    simp only [List.map_cons, getAllOrdersHandler.rows, ho]
    rw [ih (fun x hx => h x (List.mem_cons_of_mem _ hx))]
    cases os with
    | nil => rfl
    | cons o1 os1 =>
      simp only [List.isEmpty_cons, Bool.false_eq_true, if_false, Option.getD_some,
        List.append_assoc, List.singleton_append, List.map_cons]

/-- With at least one stored row, each of an order that can be encoded as the table
    gives it back, `getAllOrdersHandler` answers 200 with a JSON array that has one
    element for each row. -/
theorem getAllOrdersHandler_nonempty (col : DateColumn) (o : Order) (os : List Order)
    (h : ∀ x ∈ o :: os, ({ x with DateCreated := col x.DateCreated } : Order).Encodable) :
    ∃ js, js.length = (o :: os).length ∧
      getAllOrdersHandler col true ((o :: os).map storedRow) = ⟨200, .json (.json (.arr js))⟩ := by
  obtain ⟨js, hjs, hlen⟩ := marshalOrderList_ok
    ((o :: os).map (fun x => { x with DateCreated := col x.DateCreated }))
    (fun y hy => by
      obtain ⟨x, hx, rfl⟩ := List.mem_map.1 hy
      exact h x hx)
  refine ⟨js, by rw [hlen, List.length_map], ?_⟩
  have hr := rows_storedRow col (o :: os) h none
  simp only [getAllOrdersHandler, Bool.true_eq_false, Bool.false_eq_true, if_false, hr,
    json.MarshalOrders, List.isEmpty_cons, Option.getD_none, List.nil_append, hjs]

/-! ## The claims -/

/-- C1 (counterexample): an order whose `order_uid` is the single byte `0xFF`, with a
    delivery, a payment and an empty `Items`, is read back with `order_uid` U+FFFD, and
    such an order of year 10000 is not encoded at all. -/
theorem decodeEncoded_not_identity :
    decodeEncoded { Order.zero with OrderUID := [byte 0xFF], Items := some [] }
        = some { Order.zero with OrderUID := [byte 0xEF, byte 0xBF, byte 0xBD], Items := some [] } ∧
      decodeEncoded { Order.zero with OrderUID := [byte 0xFF], Items := some [] }
        ≠ some { Order.zero with OrderUID := [byte 0xFF], Items := some [] } ∧
      decodeEncoded { Order.zero with
        OrderUID := goString "abc123", Items := some [],
        DateCreated := ⟨10000, 1, 1, 0, 0, 0, 0, 0⟩ } = none := by
  decide

/-- C1 (amended): for every order whose Go strings are valid UTF-8 and whose
    `date_created` has a year within 0..9999 and a zone offset of whole minutes below
    24 hours, decoding the bytes produced by encoding it succeeds and yields an order
    equal to it in every field, the sequence and the nil-ness of `Items` included. -/
theorem decodeEncoded_of_encodable (o : Order) (h : o.Encodable) : decodeEncoded o = some o := by
  obtain ⟨data, hm, hu⟩ := json.MarshalOrder_UnmarshalOrder Order.zero h
  simp only [decodeEncoded, hm, hu]

/-- C1 (witness): the sample order is encodable and is read back as it was. -/
theorem decodeEncoded_of_encodable_witness :
    sampleOrder.Encodable ∧ decodeEncoded sampleOrder = some sampleOrder :=
  ⟨sampleOrder_encodable, decodeEncoded_of_encodable sampleOrder sampleOrder_encodable⟩

/-- C2: on a table with one row per `order_uid`, the upsert of `processOrders` for an
    order done twice leaves the table as doing it once does, with exactly one row for
    the order's `order_uid`; so a message delivered twice ends as one delivered once. -/
theorem upsert_twice_eq_once (s : Table) (o : Order) (hs : s.Unique) :
    upsert (upsert s (storedRow o)) (storedRow o) = upsert s (storedRow o) ∧
      rowCount (upsert s (storedRow o)) o.OrderUID = 1 ∧
      (upsert s (storedRow o)).Unique ∧
      ∀ data : Bytes, json.UnmarshalOrder data Order.zero = .ok o →
        (processOrders s [⟨some data, true⟩]).1 = upsert s (storedRow o) ∧
        (processOrders s [⟨some data, true⟩, ⟨some data, true⟩]).1
          = (processOrders s [⟨some data, true⟩]).1 := by
  refine ⟨upsert_idem s _, rowCount_upsert_self (storedRow o) hs, upsert_unique _ hs, ?_⟩
  intro data hd
  simp only [processOrders, turn_ok _ _ hd, if_true, upsert_idem, and_self]

/-- C2 (witness): the empty table and the sample order. -/
theorem upsert_twice_eq_once_witness :
    Table.Unique [] ∧ json.UnmarshalOrder sampleData Order.zero = .ok sampleOrder ∧
      rowCount (upsert [] (storedRow sampleOrder)) sampleOrder.OrderUID = 1 ∧
      (processOrders [] [⟨some sampleData, true⟩, ⟨some sampleData, true⟩]).1
        = (processOrders [] [⟨some sampleData, true⟩]).1 :=
  ⟨List.nodup_nil, sampleData_decodes,
    (upsert_twice_eq_once [] sampleOrder List.nodup_nil).2.1,
    ((upsert_twice_eq_once [] sampleOrder List.nodup_nil).2.2.2 sampleData sampleData_decodes).2⟩

/-- C3: on a table with one row per `order_uid`, processing an order and then another
    with the same `order_uid` leaves under that key the single row whose thirteen other
    columns are all those of the second order; and when no row has the key of an order,
    its upsert adds the row. -/
theorem last_write_wins (s : Table) (o1 o2 : Order) (hs : s.Unique)
    (hid : o1.OrderUID = o2.OrderUID) :
    (upsert (upsert s (storedRow o1)) (storedRow o2)).filter
        (fun r => r.order_uid = o2.OrderUID)
      = [{ order_uid := o2.OrderUID
           track_number := o2.TrackNumber
           entry := o2.Entry
           delivery := .json (json.marshalDelivery o2.Delivery)
           payment := .json (json.marshalPayment o2.Payment)
           items := .json (json.marshalItems o2.Items)
           locale := o2.Locale
           internal_signature := o2.InternalSignature
           customer_id := o2.CustomerID
           delivery_service := o2.DeliveryService
           shardkey := o2.Shardkey
           sm_id := o2.SmID
           date_created := o2.DateCreated
           oof_shard := o2.OofShard }] ∧
      (∀ data1 data2 : Bytes, json.UnmarshalOrder data1 Order.zero = .ok o1 →
        json.UnmarshalOrder data2 Order.zero = .ok o2 →
        (processOrders s [⟨some data1, true⟩, ⟨some data2, true⟩]).1
          = upsert (upsert s (storedRow o1)) (storedRow o2)) ∧
      upsert (upsert s (storedRow o1)) (storedRow o2) = upsert s (storedRow o2) ∧
      ((∀ r ∈ s, r.order_uid ≠ o2.OrderUID) → upsert s (storedRow o2) = s ++ [storedRow o2]) := by
  refine ⟨?_, ?_, upsert_overwrite s hid, ?_⟩
  · exact filter_upsert_self (storedRow o2) (upsert_unique _ hs)
  · intro data1 data2 h1 h2
    simp only [processOrders, turn_ok _ _ h1, turn_ok _ _ h2, if_true]
  · intro hn
    exact upsert_of_not_mem hn

/-- C3 (witness): the sample order, then the same order with another track number. -/
theorem last_write_wins_witness :
    Table.Unique [] ∧
      sampleOrder.OrderUID = ({ sampleOrder with TrackNumber := goString "SECOND" } : Order).OrderUID ∧
      upsert (upsert [] (storedRow sampleOrder))
          (storedRow { sampleOrder with TrackNumber := goString "SECOND" })
        = upsert [] (storedRow { sampleOrder with TrackNumber := goString "SECOND" }) :=
  ⟨List.nodup_nil, rfl,
    (last_write_wins [] sampleOrder { sampleOrder with TrackNumber := goString "SECOND" }
      List.nodup_nil rfl).2.2.1⟩

/-- C4: in every run of the loop in which a message that fails to decode is followed,
    at once or later, by one that decodes to an order, the turn of the first changes no
    row and only writes the log line, the table is from then on what it would be had
    the message never come, the loop goes on to the second message and sends its row to
    the database, which stores it unless the database fails, and the loop goes on with
    the turns after it. -/
theorem poison_message_isolated (db : Table) (before between after : List Pull)
    (bad good : Bytes) (b1 b2 : Bool) (e : json.UnmarshalError) (o : Order)
    (hbad : json.UnmarshalOrder bad Order.zero = .error e)
    (hgood : json.UnmarshalOrder good Order.zero = .ok o) :
    processOrders.turn (processOrders db before).1 ⟨some bad, b1⟩
        = ((processOrders db before).1, [.log (.failedDeserialize e)]) ∧
      (processOrders db (before ++ ⟨some bad, b1⟩ :: after)).1
        = (processOrders db (before ++ after)).1 ∧
      (processOrders db (before ++ ⟨some bad, b1⟩ :: (between ++ [⟨some good, true⟩]))).1
        = upsert (processOrders db (before ++ between)).1 (storedRow o) ∧
      queryRow (processOrders db
          (before ++ ⟨some bad, b1⟩ :: (between ++ [⟨some good, true⟩]))).1 o.OrderUID
        = some (storedRow o) ∧
      (processOrders.turn (processOrders db (before ++ ⟨some bad, b1⟩ :: between)).1
          ⟨some good, b2⟩).2.head? = some (.exec (storedRow o)) ∧
      (processOrders db
          (before ++ ⟨some bad, b1⟩ :: (between ++ ⟨some good, true⟩ :: after))).1
        = (processOrders (upsert (processOrders db (before ++ between)).1 (storedRow o)) after).1 := by
  have hskip : ∀ rest : List Pull, (processOrders db (before ++ ⟨some bad, b1⟩ :: rest)).1
      = (processOrders db (before ++ rest)).1 := by
    intro rest
    simp only [processOrders_append, processOrders, turn_error _ _ hbad]
  have hq : queryRow (upsert (processOrders db (before ++ between)).1 (storedRow o)) o.OrderUID
      = some (storedRow o) := by
    rw [queryRow_upsert]
    exact if_pos rfl
  have hlast : (processOrders db (before ++ (between ++ [⟨some good, true⟩]))).1
      = upsert (processOrders db (before ++ between)).1 (storedRow o) := by
    rw [← List.append_assoc, processOrders_append]
    simp only [processOrders, turn_ok _ _ hgood, if_true]
  refine ⟨turn_error _ _ hbad, hskip after, ?_, ?_, ?_, ?_⟩
  · rw [hskip, hlast]
  · rw [hskip, hlast, hq]
  · rw [turn_ok _ _ hgood]
    cases b2 <;> rfl
  · rw [hskip, ← List.append_assoc, processOrders_append]
    simp only [processOrders, turn_ok _ _ hgood, if_true]

/-- C4 (witness): text that is not JSON, then the sample message, on an empty table. -/
theorem poison_message_isolated_witness :
    json.UnmarshalOrder .invalid Order.zero = .error .invalidJSON ∧
      json.UnmarshalOrder sampleData Order.zero = .ok sampleOrder ∧
      (processOrders [] ([] ++ ⟨some .invalid, true⟩ :: ([] ++ [⟨some sampleData, true⟩]))).1
        = upsert (processOrders [] ([] ++ [])).1 (storedRow sampleOrder) :=
  ⟨rfl, sampleData_decodes,
    (poison_message_isolated [] [] [] [] .invalid sampleData true true .invalidJSON sampleOrder
      rfl sampleData_decodes).2.2.1⟩

/-- C5 (counterexample): the sample message decodes and its row is stored, and the turn
    sends the statement to the database and writes "Order processed" and does nothing
    else: it does not acknowledge the message. -/
theorem no_ack_after_persist :
    json.UnmarshalOrder sampleData Order.zero = .ok sampleOrder ∧
      (processOrders.turn [] ⟨some sampleData, true⟩).1 = [storedRow sampleOrder] ∧
      (processOrders.turn [] ⟨some sampleData, true⟩).2
        = [.exec (storedRow sampleOrder), .log (.orderProcessed sampleOrder.OrderUID)] ∧
      Effect.ack ∉ (processOrders.turn [] ⟨some sampleData, true⟩).2 := by
  refine ⟨sampleData_decodes, ?_, ?_, turn_no_ack _ _⟩
  · rw [turn_ok _ _ sampleData_decodes]
    rfl
  · rw [turn_ok _ _ sampleData_decodes]
    rfl

/-- C5 (amended): for every message pulled by `processOrders` that decodes and whose
    upsert succeeds, the turn stores the row and writes "Order processed", and that is
    all it does; no turn of the loop acknowledges a message, so the message ends
    persisted and not acknowledged. -/
theorem persisted_not_acknowledged (db : Table) (data : Bytes) (o : Order)
    (h : json.UnmarshalOrder data Order.zero = .ok o) :
    processOrders.turn db ⟨some data, true⟩
        = (upsert db (storedRow o), [.exec (storedRow o), .log (.orderProcessed o.OrderUID)]) ∧
      ∀ (db0 : Table) (pulls : List Pull), Effect.ack ∉ (processOrders db0 pulls).2 := by
  refine ⟨?_, fun db0 pulls => processOrders_no_ack pulls db0⟩
  rw [turn_ok _ _ h]
  rfl

/-- C5 (witness): the sample message on an empty table. -/
theorem persisted_not_acknowledged_witness :
    json.UnmarshalOrder sampleData Order.zero = .ok sampleOrder ∧
      processOrders.turn [] ⟨some sampleData, true⟩
        = (upsert [] (storedRow sampleOrder),
            [.exec (storedRow sampleOrder), .log (.orderProcessed sampleOrder.OrderUID)]) :=
  ⟨sampleData_decodes, (persisted_not_acknowledged [] sampleData sampleOrder sampleData_decodes).1⟩

/-- C6 (counterexample): the payload `{}`, with no delivery, no payment and no
    `order_uid`, decodes to the zero order, and so does `{"order_uid":""}`;
    `orderHandler` answers 200 for `{}` and publishes it, and `processOrders` stores a
    row for it. -/
theorem empty_object_accepted :
    json.UnmarshalOrder (.json (.obj [])) Order.zero = .ok Order.zero ∧
      json.UnmarshalOrder (.json (.obj [("order_uid", .str "")])) Order.zero = .ok Order.zero ∧
      (orderHandler JetStream.up (.json (.obj []))).1.status = 200 ∧
      (orderHandler JetStream.up (.json (.obj []))).2.length = 1 ∧
      (processOrders [] (deliver (orderHandler JetStream.up (.json (.obj []))).2)).1
        = [storedRow Order.zero] := by
  have h : json.UnmarshalOrder (.json (.obj [])) Order.zero = .ok Order.zero := rfl
  obtain ⟨data, hm, hu⟩ := json.MarshalOrder_UnmarshalOrder Order.zero json.Order_zero_encodable
  have hh := orderHandler_ok h hm
  refine ⟨h, rfl, ?_, ?_, (pipeline_ok h hm hu []).2⟩
  · rw [hh]
  · rw [hh]
    rfl

/-- C6 (amended): decoding rejects no payload for what it lacks.  A JSON object that
    decodes still decodes without its delivery member, without its payment member or
    without its `order_uid` member, the part left out taking its zero value (an empty
    `order_uid`).  `orderHandler` answers 400 for the payloads that fail to decode and
    for no other, and publishes nothing for them; `processOrders` stores nothing for a
    message that fails to decode, and stores a row for a message that decodes when the
    database carries out the statement. -/
theorem incomplete_orders_decode (members : List (String × JSON)) (o : Order)
    (h : json.UnmarshalOrder (.json (.obj members)) Order.zero = .ok o) :
    json.UnmarshalOrder (.json (.obj (dropField .delivery members))) Order.zero
        = .ok { o with Delivery := Delivery.zero } ∧
      json.UnmarshalOrder (.json (.obj (dropField .payment members))) Order.zero
        = .ok { o with Payment := Payment.zero } ∧
      json.UnmarshalOrder (.json (.obj (dropField .order_uid members))) Order.zero
        = .ok { o with OrderUID := [] } ∧
      (∀ (body : Bytes) (js : JetStream),
        (orderHandler js body).1.status = 400 ↔
          ∃ e, json.UnmarshalOrder body Order.zero = .error e) ∧
      (∀ (body : Bytes) (e : json.UnmarshalError) (js : JetStream) (db : Table) (dbOk : Bool),
        json.UnmarshalOrder body Order.zero = .error e →
        orderHandler js body = (⟨400, .error "Invalid request payload"⟩, []) ∧
        (processOrders.turn db ⟨some body, dbOk⟩).1 = db) ∧
      (∀ (body : Bytes) (o1 : Order) (db : Table),
        json.UnmarshalOrder body Order.zero = .ok o1 →
        (processOrders.turn db ⟨some body, true⟩).1 = upsert db (storedRow o1)) := by
  refine ⟨json.UnmarshalOrder_drop_delivery h, json.UnmarshalOrder_drop_payment h,
    json.UnmarshalOrder_drop_order_uid h, ?_, ?_, ?_⟩
  · intro body js
    exact orderHandler_400 js body
  · intro body e js db dbOk h1
    refine ⟨orderHandler_error js h1, ?_⟩
    rw [turn_error _ _ h1]
  · intro body o1 db h1
    rw [turn_ok _ _ h1]
    rfl

/-- C6 (witness): the sample message without its `order_uid` member decodes to the
    sample order with an empty `order_uid`. -/
theorem incomplete_orders_decode_witness :
    json.UnmarshalOrder sampleData Order.zero = .ok sampleOrder ∧
      json.UnmarshalOrder (.json (.obj (dropField .order_uid
          [("order_uid", .str "abc123"), ("track_number", .str "WBILMTESTTRACK"),
            ("payment", .obj [("amount", .num 1817)]),
            ("items", .arr [.obj [("price", .num 453), ("total_price", .num 317)]]),
            ("date_created", .str "2021-11-26T06:22:19Z")]))) Order.zero
        = .ok { sampleOrder with OrderUID := [] } :=
  ⟨sampleData_decodes, (incomplete_orders_decode _ sampleOrder sampleData_decodes).2.2.1⟩

/-- C7 (counterexample): a payload with `payment.amount` -5 and an item with price -1
    and total price -2 decodes with those values; `orderHandler` answers 200 and
    publishes it, and `processOrders` stores it. -/
theorem negative_payload_accepted :
    json.UnmarshalOrder negativeData Order.zero = .ok negativeOrder ∧
      negativeOrder.Payment.Amount = -5 ∧
      (orderHandler JetStream.up negativeData).1.status = 200 ∧
      (processOrders [] (deliver (orderHandler JetStream.up negativeData).2)).1
        = [storedRow negativeOrder] := by
  obtain ⟨data, hm, hu⟩ := json.MarshalOrder_UnmarshalOrder Order.zero negativeOrder_encodable
  have hp := pipeline_ok negativeData_decodes hm hu []
  refine ⟨negativeData_decodes, rfl, ?_, hp.2⟩
  rw [hp.1]

/-- C7 (amended): numbers are checked for their range and not for their sign.  A JSON
    integer within 64 bits, negative or not, is stored into `payment.amount`, an item's
    `price` or its `total_price` as it is; and for every encodable order, whatever the
    sign of its numbers, the payload that encodes it decodes to that order, is answered
    with 200 and published by `orderHandler`, and is stored by `processOrders`. -/
theorem numbers_not_checked_for_sign (o : Order) (h : o.Encodable) :
    (∀ (n : Int) (p : Payment) (i : Item), fitsInt64 n →
        json.setPayment p .amount (.num n) = .ok { p with Amount := n } ∧
        json.setItem i .price (.num n) = .ok { i with Price := n } ∧
        json.setItem i .total_price (.num n) = .ok { i with TotalPrice := n }) ∧
      ∃ data, json.MarshalOrder o = .ok data ∧
        json.UnmarshalOrder data Order.zero = .ok o ∧
        orderHandler JetStream.up data = (⟨200, .orderReceived o.OrderUID⟩, [data]) ∧
        ∀ db : Table, (processOrders db (deliver [data])).1 = upsert db (storedRow o) := by
  constructor
  · intro n p i hn
    simp only [json.setPayment, json.setItem, json.decodeInt_num _ hn, json.map_ok, and_self]
  · obtain ⟨data, hm, hu⟩ := json.MarshalOrder_UnmarshalOrder Order.zero h
    refine ⟨data, hm, hu, orderHandler_ok hu hm, ?_⟩
    intro db
    simp only [deliver, List.map, processOrders, turn_ok _ _ hu, if_true]

/-- C7 (witness): the order with negative numbers. -/
theorem numbers_not_checked_for_sign_witness :
    negativeOrder.Encodable ∧ fitsInt64 (-5) ∧
      json.setPayment Payment.zero .amount (.num (-5)) = .ok { Payment.zero with Amount := -5 } :=
  ⟨negativeOrder_encodable, by decide,
    ((numbers_not_checked_for_sign negativeOrder negativeOrder_encodable).1 (-5) Payment.zero
      Item.zero (by decide)).1⟩

/-- C8 (counterexample): an accepted payload with no `items` member, and one whose
    `items` member is `null`, is stored with the items column holding JSON `null`, and
    `getOrderHandler` returns the order with `items` as `null`. -/
theorem absent_items_stored_as_null :
    (orderHandler JetStream.up noItemsData).1.status = 200 ∧
      (queryRow (processOrders [] (deliver (orderHandler JetStream.up noItemsData).2)).1
          (goString "abc123")).map (fun r => r.items) = some (.json .null) ∧
      (getOrderHandler timestampColumn true
          (processOrders [] (deliver (orderHandler JetStream.up noItemsData).2)).1
          (goString "abc123")).body.member "items" = some .null ∧
      (orderHandler JetStream.up nullItemsData).1.status = 200 ∧
      (queryRow (processOrders [] (deliver (orderHandler JetStream.up nullItemsData).2)).1
          (goString "abc123")).map (fun r => r.items) = some (.json .null) ∧
      (getOrderHandler timestampColumn true
          (processOrders [] (deliver (orderHandler JetStream.up nullItemsData).2)).1
          (goString "abc123")).body.member "items" = some .null := by
  have h1 : json.UnmarshalOrder noItemsData Order.zero
      = .ok { Order.zero with OrderUID := goString "abc123" } := by decide
  have h2 : json.UnmarshalOrder nullItemsData Order.zero
      = .ok { Order.zero with OrderUID := goString "abc123" } := by decide
  have ho : ({ Order.zero with OrderUID := goString "abc123" } : Order).Encodable :=
    { json.Order_zero_encodable with order_uid := validUTF8_goString _ }
  have hne : goString "abc123" ≠ [] := by decide
  have hq : ∀ db : Table, queryRow (upsert db (storedRow { Order.zero with OrderUID := goString "abc123" }))
      (goString "abc123") = some (storedRow { Order.zero with OrderUID := goString "abc123" }) := by
    intro db
    rw [queryRow_upsert]
    exact if_pos rfl
  obtain ⟨data, hm, hu⟩ := json.MarshalOrder_UnmarshalOrder Order.zero ho
  have hg := (getOrderHandler_storedRow timestampColumn hne (hq []) ho.delivery ho.payment
    ho.items).2 data hm
  have hmem := member_items_marshalOrder hm
  have p1 := pipeline_ok h1 hm hu []
  have p2 := pipeline_ok h2 hm hu []
  refine ⟨?_, ?_, ?_, ?_, ?_, ?_⟩
  · rw [p1.1]
  · rw [p1.2, hq]
    rfl
  · rw [p1.2, hg]
    exact hmem
  · rw [p2.1]
  · rw [p2.2, hq]
    rfl
  · rw [p2.2, hg]
    exact hmem

/-- C8 (amended): for every payload that `orderHandler` accepts, answering 200, and
    `processOrders` persists, whose `items` member is a JSON array, `[]` included, and
    whose `order_uid` is not empty, the stored items blob is a JSON array with one
    element for each element of the payload's array, and `getOrderHandler` answers 200
    and, when the order as the table gives it back can be encoded, returns it with
    `items` as that array: the empty array for `[]`. -/
theorem array_items_stored_as_array (col : DateColumn) (pre post : List (String × JSON))
    (key : String) (elems : List JSON) (o : Order) (db : Table)
    (hkey : json.findField json.orderFields key = some .items)
    (hpost : ∀ m ∈ post, json.findField json.orderFields m.1 ≠ some .items)
    (h : json.UnmarshalOrder (.json (.obj (pre ++ (key, .arr elems) :: post))) Order.zero = .ok o)
    (hacc : (orderHandler JetStream.up (.json (.obj (pre ++ (key, .arr elems) :: post)))).1.status
      = 200)
    (hid : o.OrderUID ≠ []) :
    ∃ xs : List Item, o.Items = some xs ∧ xs.length = elems.length ∧
      (queryRow (processOrders db (deliver
          (orderHandler JetStream.up (.json (.obj (pre ++ (key, .arr elems) :: post)))).2)).1
        o.OrderUID).map (fun r => r.items) = some (.json (.arr (xs.map json.marshalItem))) ∧
      (getOrderHandler col true (processOrders db (deliver
          (orderHandler JetStream.up (.json (.obj (pre ++ (key, .arr elems) :: post)))).2)).1
        o.OrderUID).status = 200 ∧
      ∀ data, json.MarshalOrder { o with DateCreated := col o.DateCreated } = .ok data →
        getOrderHandler col true (processOrders db (deliver
            (orderHandler JetStream.up (.json (.obj (pre ++ (key, .arr elems) :: post)))).2)).1
          o.OrderUID = ⟨200, .json data⟩ ∧
        Body.member "items" (.json data) = some (.arr (xs.map json.marshalItem)) := by
  obtain ⟨xs, hitems, hlen⟩ := items_of_array_member hkey hpost h
  obtain ⟨pub, hm⟩ := orderHandler_accepted h hacc
  have hdec := json.UnmarshalOrder_decoded h
  have hp := pipeline_ok h hm (published_decodes h hm) db
  have hq : queryRow (upsert db (storedRow o)) o.OrderUID = some (storedRow o) := by
    rw [queryRow_upsert]
    exact if_pos rfl
  have hg := getOrderHandler_storedRow col hid hq hdec.delivery hdec.payment hdec.items
  refine ⟨xs, hitems, hlen, ?_, ?_, ?_⟩
  · rw [hp.2, hq]
    simp only [Option.map, storedRow, orderRow, hitems, json.marshalItems]
  · rw [hp.2]
    exact hg.1
  · intro data hd
    rw [hp.2]
    refine ⟨hg.2 data hd, ?_⟩
    rw [member_items_marshalOrder hd]
    simp only [hitems, json.marshalItems]

/-- C8 (witness): the payload with `"items":[]` is accepted, stored with the items
    column `[]` and returned with `items` as the empty array. -/
theorem array_items_stored_as_array_witness :
    json.findField json.orderFields "items" = some .items ∧
      json.UnmarshalOrder emptyItemsData Order.zero
        = .ok { Order.zero with OrderUID := goString "abc123", Items := some [] } ∧
      (orderHandler JetStream.up emptyItemsData).1.status = 200 ∧
      ∃ xs : List Item, xs.length = 0 ∧
        (getOrderHandler timestampColumn true (processOrders [] (deliver
            (orderHandler JetStream.up emptyItemsData).2)).1
          (goString "abc123")).body.member "items" = some (.arr (xs.map json.marshalItem)) := by
  have hd : json.UnmarshalOrder emptyItemsData Order.zero
      = .ok { Order.zero with OrderUID := goString "abc123", Items := some [] } := by decide
  have ho : ({ Order.zero with OrderUID := goString "abc123", Items := some [] } : Order).Encodable :=
    { json.Order_zero_encodable with
      order_uid := validUTF8_goString _
      items := fun i hi => absurd hi (List.not_mem_nil _) }
  obtain ⟨data, hm, _⟩ := json.MarshalOrder_UnmarshalOrder Order.zero ho
  have hacc : (orderHandler JetStream.up emptyItemsData).1.status = 200 := by
    rw [orderHandler_ok hd hm]
  obtain ⟨xs, _, hlen, _, _, hget⟩ := array_items_stored_as_array timestampColumn
    [("order_uid", .str "abc123"), ("delivery", .obj []), ("payment", .obj [])] [] "items" []
    { Order.zero with OrderUID := goString "abc123", Items := some [] } []
    (by decide) (fun m hm => absurd hm (List.not_mem_nil _)) hd hacc (by decide)
  obtain ⟨hresp, hmem⟩ := hget data hm
  refine ⟨by decide, hd, hacc, xs, hlen, ?_⟩
  have hresp1 : getOrderHandler timestampColumn true (processOrders [] (deliver
      (orderHandler JetStream.up emptyItemsData).2)).1 (goString "abc123")
      = ⟨200, .json data⟩ := hresp
  rw [hresp1]
  exact hmem

/-- C9 (the code at the failing input): with no row in the table `getAllOrdersHandler`
    answers 200 with the body `null`, the encoding of the nil slice `orders`, and not
    with the empty array. -/
theorem getAllOrdersHandler_empty_table (col : DateColumn) :
    getAllOrdersHandler col true [] = ⟨200, .json (.json .null)⟩ ∧
      (getAllOrdersHandler col true []).status = 200 ∧
      json.MarshalOrders none = .ok (.json .null) ∧
      json.MarshalOrders (some []) = .ok (.json (.arr [])) :=
  ⟨rfl, rfl, rfl, rfl⟩

/-- C10 (counterexample): a row is stored under the requested id and its delivery blob
    does not decode into the `Delivery` struct; the answer is 500 and not 200. -/
theorem undecodable_blob_answers_500 :
    goString "abc123" ≠ [] ∧
      (queryRow [brokenRow] (goString "abc123")).map (fun r => r.order_uid)
        = some (goString "abc123") ∧
      getOrderHandler timestampColumn true [brokenRow] (goString "abc123")
        = ⟨500, .error "Failed to deserialize delivery data"⟩ ∧
      (getOrderHandler timestampColumn true [brokenRow] (goString "abc123")).status = 500 :=
  ⟨by decide, rfl, rfl, rfl⟩

/-- C10 (amended): for every requested id and table, `getOrderHandler` answers 400 if
    the id is empty, 404 if no row is stored under the id, 500 if one of the three
    stored blobs of the row does not decode, and otherwise 200 with the full order
    whose scalar fields are the stored columns, `date_created` as its column gives it
    back, and whose delivery, payment and items are the decodings of the stored blobs;
    the body stays empty when that order cannot be encoded.  In every table that
    `processOrders` builds from an empty one the blobs decode: the answer for a
    non-empty id is 404 when no turn stored an order under it, and else 200 with the
    order last upserted under it, `date_created` as its column gives it back. -/
theorem getOrderHandler_status (col : DateColumn) (db : Table) (id : GoString) :
    (id = [] → ∀ dbOk : Bool,
        getOrderHandler col dbOk db id = ⟨400, .error "Order ID is required"⟩) ∧
      (id ≠ [] → queryRow db id = none →
        getOrderHandler col true db id = ⟨404, .error "Order not found"⟩) ∧
      (id ≠ [] → ∀ (row : Row) (msg : String), queryRow db id = some row →
        unmarshalRow col row = .error msg → getOrderHandler col true db id = ⟨500, .error msg⟩) ∧
      (id ≠ [] → ∀ (row : Row) (order : Order), queryRow db id = some row →
        unmarshalRow col row = .ok order →
        (getOrderHandler col true db id).status = 200 ∧
        (∀ data, json.MarshalOrder order = .ok data →
          getOrderHandler col true db id = ⟨200, .json data⟩) ∧
        (∀ e, json.MarshalOrder order = .error e →
          getOrderHandler col true db id = ⟨200, .empty⟩) ∧
        order.OrderUID = row.order_uid ∧ order.TrackNumber = row.track_number ∧
        order.Entry = row.entry ∧ order.Locale = row.locale ∧
        order.InternalSignature = row.internal_signature ∧
        order.CustomerID = row.customer_id ∧ order.DeliveryService = row.delivery_service ∧
        order.Shardkey = row.shardkey ∧ order.SmID = row.sm_id ∧
        order.DateCreated = col row.date_created ∧ order.OofShard = row.oof_shard ∧
        json.UnmarshalDelivery row.delivery Delivery.zero = .ok order.Delivery ∧
        json.UnmarshalPayment row.payment Payment.zero = .ok order.Payment ∧
        json.UnmarshalItems row.items none = .ok order.Items) ∧
      (id ≠ [] → ∀ pulls : List Pull,
        match lastUpserted id pulls with
        | none =>
          getOrderHandler col true (processOrders [] pulls).1 id
            = ⟨404, .error "Order not found"⟩
        | some o =>
          (getOrderHandler col true (processOrders [] pulls).1 id).status = 200 ∧
          ∀ data, json.MarshalOrder { o with DateCreated := col o.DateCreated } = .ok data →
            getOrderHandler col true (processOrders [] pulls).1 id = ⟨200, .json data⟩) := by
  refine ⟨?_, ?_, ?_, ?_, ?_⟩
  · intro hid dbOk
    simp only [getOrderHandler, hid, if_true]
  · intro hid hq
    simp only [getOrderHandler, hid, if_false, if_true, hq]
  · intro hid row msg hq hu
    simp only [getOrderHandler, hid, if_false, if_true, hq, hu]
  · intro hid row order hq hu
    have hu' := hu
    unfold unmarshalRow at hu'
    split at hu'
    · exact absurd hu' (by simp)
    · rename_i delivery hd
      split at hu'
      · exact absurd hu' (by simp)
      · rename_i payment hp
        split at hu'
        · exact absurd hu' (by simp)
        · rename_i items hi
          simp only [Except.ok.injEq] at hu'
          subst hu'
          refine ⟨?_, ?_, ?_, rfl, rfl, rfl, rfl, rfl, rfl, rfl, rfl, rfl, rfl, rfl, hd, hp, hi⟩
          · simp only [getOrderHandler, hid, if_false, if_true, hq, hu]
            split <;> rfl
          · intro data hm
            simp only [getOrderHandler, hid, if_false, if_true, hq, hu, hm]
          · intro e hm
            simp only [getOrderHandler, hid, if_false, if_true, hq, hu, hm]
  · intro hid pulls
    have hq := queryRow_processOrders id pulls []
    cases hl : lastUpserted id pulls with
    | none =>
      simp only [hl] at hq ⊢
      have hnone : queryRow (processOrders [] pulls).1 id = none := hq
      simp only [getOrderHandler, hid, if_false, if_true, hnone]
    | some o =>
      simp only [hl] at hq ⊢
      have hdec := lastUpserted_decoded id pulls o hl
      exact getOrderHandler_storedRow col hid hq hdec.delivery hdec.payment hdec.items

/-- C10 (witness): after the loop has handled the sample message on an empty table,
    the request for `abc123` is answered with 200 and the sample order, whose time a
    `timestamp` column gives back as it was. -/
theorem getOrderHandler_status_witness :
    goString "abc123" ≠ [] ∧
      ∃ data, json.MarshalOrder sampleOrder = .ok data ∧
        getOrderHandler timestampColumn true (processOrders [] [⟨some sampleData, true⟩]).1
          (goString "abc123") = ⟨200, .json data⟩ := by
  have hne : goString "abc123" ≠ [] := by decide
  have hl : lastUpserted (goString "abc123") [⟨some sampleData, true⟩] = some sampleOrder := by
    decide
  have h := (getOrderHandler_status timestampColumn [] (goString "abc123")).2.2.2.2 hne
    [⟨some sampleData, true⟩]
  rw [hl] at h
  obtain ⟨data, hm, _⟩ := json.MarshalOrder_UnmarshalOrder Order.zero sampleOrder_encodable
  exact ⟨hne, data, hm, h.2 data hm⟩

end WBL0
